import Mathlib

/-!
# Parallel EVM executor (`parallel/parallel_evm.go`)

A shallow embedding of the block executor: the preparer (`prepareTxnList`),
the partitioner (`SplitTxnCtxList`, `checkAddressConflict`), the serial
executor (`executeTxnCtxListInOrder`), the speculative executor with conflict
detection (`executeTxnCtxListInConcurrency`) and the block driver (`Execute`).

Go values are embedded as follows.
* Addresses, hashes, state keys, state values, events and `error` values are
  natural numbers.
* `*state.StateDB` is a total map from keys to values; `Copy()` is the
  identity on values, since a pure map is already an independent snapshot.
* A nil pointer is `none`; dereferencing it is a panic, which the embedding
  reports as `none` in the result of the function that would panic.
* The goroutine fan-outs write to disjoint slots of a slice and are joined
  before the slice is read, so they are embedded as `List.map`.
* A call `tctx.writing(tctx.ctx)` works on the state handle in place and on
  the context it is given: its embedding returns the contents of the handle
  after the call (also when the call returns an error), the events it emitted
  into the context, and the error or the pending state. The events stay in
  the context, which the engine reuses when it runs the transaction again.
* Metrics are write-only side effects and are left out.
-/

namespace Reddio

abbrev Addr := Nat
abbrev Hash := Nat
abbrev Key := Nat
abbrev Val := Nat
abbrev Error := Nat
abbrev Event := Nat

/-- The world state `*state.StateDB`: a total key/value map. -/
abbrev StateDB := Key → Val

/-- The two fields of `evm.TxRequest` the engine reads: `Origin` is a value,
`Address` is a pointer and may be nil. -/
structure TxRequest where
  Origin : Addr
  Address : Option Addr
deriving DecidableEq, Repr

/-- Modelled from the spec: `pending_state.StateContext`, the read set and the
write set of state keys (spec §3, *PendingState* and *BatchContext*). -/
structure StateContext where
  Read : List Key
  Write : List Key
deriving DecidableEq, Repr

/-- Modelled from the spec: `pending_state.PendingState` (spec §3): the state
handle the transaction ran on, as it is after the run; the value changes to
apply on merge; and the read and write sets. -/
structure PendingState where
  stateDB : StateDB
  deltas : List (Key × Val)
  sctx : StateContext

/-- A receipt as produced by the receipt factories `HandleEvent` and
`HandleError` of the host framework: a success receipt carries the events the
run emitted, a failure receipt carries the error. -/
inductive Receipt where
  | success (events : List Event)
  | failure (err : Error)
deriving DecidableEq, Repr

/-- The part of `context.WriteContext` that the engine carries from one call
of `writing` to the next on the same context: the events emitted into it so
far. (`ExtraInterface` is represented by the argument and the result of
`writing`.) -/
structure WriteContext where
  Events : List Event
deriving DecidableEq, Repr

/-- What one call `tctx.writing(tctx.ctx)` leaves behind: the contents of the
state handle it was given in `ctx.ExtraInterface` (the closure works on the
handle in place and may have written to it before it returns an error), the
events it emitted into `ctx`, and the returned `error` or, when it returns
nil, the `PendingState` it left in `ctx.ExtraInterface`. -/
structure WriteResult where
  stateDB : StateDB
  events : List Event
  out : Except Error PendingState

/-- The interpreter closure `dev.Writing`, as a function of the contents of
the state handle it is given. -/
abbrev Writing := StateDB → WriteResult

/-- A signed transaction `types.SignedTxn` together with what the host
framework answers for it during preparation: `ctxErr` is the error of
`context.NewWriteContext` (if any), `bind` is the outcome of `ctx.BindJson`,
and `writing` is the closure `Land.GetWriting` resolves for its call. -/
structure SignedTxn where
  TxnHash : Hash
  ctxErr : Option Error
  bind : Except Error TxRequest
  writing : Writing

/-- The working record `txnCtx`. The pointer `txn` is optional because
`prepareTxnList` builds contexts in which it is never set; `req` and `writing`
are only read on contexts that passed preparation, where they are set, and
are total here (the zero `txnCtx` carries `zeroReq` and `zeroWriting`); so is
`ctx`, which the engine dereferences only on prepared contexts. -/
structure txnCtx where
  ctx : WriteContext
  txn : Option SignedTxn
  writing : Writing
  req : TxRequest
  err : Option Error
  ps : Option PendingState
  receipt : Option Receipt

/-! ## Partitioner -/

/-- One iteration of the `for _, compare := range curList` body of
`checkAddressConflict`: the four `if` tests, in source order. -/
def conflictWith (curTxn compare : txnCtx) : Bool :=
  if (curTxn.req.Address ≠ none ∧ compare.req.Address ≠ none)
      ∧ compare.req.Address = curTxn.req.Address then true
  else if compare.req.Address ≠ none ∧ compare.req.Address = some curTxn.req.Origin then true
  else if curTxn.req.Address ≠ none ∧ some compare.req.Origin = curTxn.req.Address then true
  else if compare.req.Origin = curTxn.req.Origin then true
  else false

/-- The source function `checkAddressConflict`. -/
def checkAddressConflict (curTxn : txnCtx) : List txnCtx → Bool
  | [] => false
  | compare :: rest =>
    if conflictWith curTxn compare then true else checkAddressConflict curTxn rest

/-- The `for cur < len(list)` loop of `SplitTxnCtxList`, one iteration per unit
of fuel, followed by the trailing `if len(curList) > 0`. The result is `none`
when the fuel runs out before the loop exits. `maxc` is
`config.GetGlobalConfig().MaxConcurrency`, a Go `int`. -/
def splitLoop (maxc : Int) (list : List txnCtx) :
    Nat → Nat → List txnCtx → List (List txnCtx) → Option (List (List txnCtx))
  | 0, _, _, _ => none
  | fuel + 1, cur, curList, got =>
    match list[cur]? with
    | none => some (if 0 < curList.length then got ++ [curList] else got)
    | some curTxnCtx =>
      if checkAddressConflict curTxnCtx curList then
        splitLoop maxc list fuel cur [] (got ++ [curList])
      else
        if ((curList ++ [curTxnCtx]).length : Int) ≥ maxc then
          splitLoop maxc list fuel (cur + 1) [] (got ++ [curList ++ [curTxnCtx]])
        else
          splitLoop maxc list fuel (cur + 1) (curList ++ [curTxnCtx]) got

/-- The source function `SplitTxnCtxList`, run with `2 * len(list) + 1`
iterations of fuel (every cursor position takes at most two iterations, and
one more sees the loop condition fail). -/
def SplitTxnCtxList (maxc : Int) (list : List txnCtx) : Option (List (List txnCtx)) :=
  splitLoop maxc list (2 * list.length + 1) 0 [] []

/-- The loop of `SplitTxnCtxList` by recursion on the part of the list that is
still to be read: the two iterations the loop spends on a conflicting
transaction (close the batch, then append to the empty batch) are one step. -/
def splitRest (maxc : Int) :
    List txnCtx → List txnCtx → List (List txnCtx) → List (List txnCtx)
  | [], curList, got => if 0 < curList.length then got ++ [curList] else got
  | t :: rest, curList, got =>
    if checkAddressConflict t curList then
      if (([] ++ [t] : List txnCtx).length : Int) ≥ maxc then
        splitRest maxc rest [] (got ++ [curList] ++ [[] ++ [t]])
      else
        splitRest maxc rest ([] ++ [t]) (got ++ [curList])
    else
      if ((curList ++ [t]).length : Int) ≥ maxc then
        splitRest maxc rest [] (got ++ [curList ++ [t]])
      else
        splitRest maxc rest (curList ++ [t]) got

/-- The static conflict predicate of spec §4.2, as the spec words it. -/
def staticConflict (A B : txnCtx) : Prop :=
  (∃ a, A.req.Address = some a ∧ B.req.Address = some a)
  ∨ A.req.Address = some B.req.Origin
  ∨ B.req.Address = some A.req.Origin
  ∨ A.req.Origin = B.req.Origin

/-- Why a batch `B` followed by a batch `B2` was closed (spec §4.2,
*Algorithm*): it was full, or the first transaction of `B2` conflicts with a
transaction of `B`. -/
def closedBy (maxc : Int) (B B2 : List txnCtx) : Prop :=
  (B.length : Int) = maxc ∨ ∃ x, B2.head? = some x ∧ ∃ c ∈ B, staticConflict x c

/-- The batch sizes spec §8 scenario 6 expects for `n` independent
transactions: `n / m` full batches, then the remainder if there is one. -/
def chunkSizes (m n : Nat) : List Nat :=
  List.replicate (n / m) m ++ (if n % m = 0 then [] else [n % m])

/-! ## Receipt factories and pending state -/

/-- The source function `handleTxnError`: count, then `k.HandleError`. -/
def handleTxnError (err : Error) : Receipt := Receipt.failure err

/-- The source function `handleTxnEvent`: `isRedo` only selects a metrics
label; the receipt is `k.HandleEvent(ctx, block, stxn)` either way, built from
the events `ctx` holds. -/
def handleTxnEvent (ctx : WriteContext) (_isRedo : Bool) : Receipt :=
  Receipt.success ctx.Events

/-- The context after a call of `writing` that emitted `events` into it. -/
def WriteContext.emit (ctx : WriteContext) (events : List Event) : WriteContext :=
  { Events := ctx.Events ++ events }

/-- Modelled from the spec: `PendingState.GetStateDB`, the state handle the
transaction ran on (spec §4.3: serial mode threads it forward). -/
def PendingState.GetStateDB (p : PendingState) : StateDB := p.stateDB

/-- Modelled from the spec: `PendingState.GetCtx`, the read and write sets. -/
def PendingState.GetCtx (p : PendingState) : StateContext := p.sctx

/-- Plain write-through of value changes, first to last (spec §4.5, *Merge
semantics*). -/
def applyDeltas : List (Key × Val) → StateDB → StateDB
  | [], s => s
  | (k, v) :: rest, s => applyDeltas rest (fun x => if x = k then v else s x)

/-- Modelled from the spec: `PendingState.MergeInto` (spec §4.5): apply the
deltas to the target state as plain write-through. -/
def PendingState.MergeInto (p : PendingState) (target : StateDB) : StateDB :=
  applyDeltas p.deltas target

/-- Modelled from the spec: `pending_state.NewStateContext`, the empty batch
context (spec §4.4). -/
def NewStateContext : StateContext := { Read := [], Write := [] }

/-- Two key sets meet when they share a key. -/
def meets (a b : List Key) : Bool := a.any (fun k => b.contains k)

/-- Modelled from the spec: the conflict test of spec §4.4 between the batch
context `C` and a pending state's sets `P`. -/
def StateContext.conflicts (C P : StateContext) : Bool :=
  meets P.Read C.Write || meets P.Write C.Write || meets P.Write C.Read

/-- Modelled from the spec: merging a pending state's sets into the batch
context (spec §4.4). -/
def StateContext.merge (C P : StateContext) : StateContext :=
  { Read := C.Read ++ P.Read, Write := C.Write ++ P.Write }

/-- Modelled from the spec: `StateContext.IsConflict`, called on the batch
context with a pending state's sets (spec §4.4): report a conflict and leave
the context as it is, or merge the sets into the context. The Go method has a
pointer receiver; the second component is the receiver after the call. -/
def StateContext.IsConflict (C P : StateContext) : Bool × StateContext :=
  if C.conflicts P then (true, C) else (false, C.merge P)

/-! ## Serial executor -/

/-- The source function `gcCopiedStateDB`: unlink every context from its
pending state. -/
def gcCopiedStateDB (list : List txnCtx) : List txnCtx :=
  list.map (fun c => { c with ps := none })

/-- The `for index, tctx := range list` loop of `executeTxnCtxListInOrder`,
returning the updated list and the contents of `currStateDb` at loop exit.
`w` is the call `tctx.writing(tctx.ctx)` on the handle `currStateDb`. When it
returns an error, `currStateDb` is not reassigned: the next iteration gets the
same handle, with whatever the call wrote to it (`w.stateDB`). When it returns
nil, `currStateDb` becomes `tctx.ps.GetStateDB()`. -/
def inOrderLoop (isRedo : Bool) : StateDB → List txnCtx → List txnCtx × StateDB
  | currStateDb, [] => ([], currStateDb)
  | currStateDb, tctx :: rest =>
    if tctx.err ≠ none then
      let r := inOrderLoop isRedo currStateDb rest
      (tctx :: r.1, r.2)
    else
      let w := tctx.writing currStateDb
      match w.out with
      | Except.error err =>
        let r := inOrderLoop isRedo w.stateDB rest
        ({ tctx with ctx := tctx.ctx.emit w.events, err := some err,
                     receipt := some (handleTxnError err) } :: r.1, r.2)
      | Except.ok ps =>
        let r := inOrderLoop isRedo ps.GetStateDB rest
        ({ tctx with ctx := tctx.ctx.emit w.events,
                     receipt := some (handleTxnEvent (tctx.ctx.emit w.events) isRedo),
                     ps := some ps } :: r.1, r.2)

/-- The source function `executeTxnCtxListInOrder`: the updated list, and the
state handed to `k.Solidity.SetStateDB`. -/
def executeTxnCtxListInOrder (originStateDB : StateDB) (list : List txnCtx) (isRedo : Bool) :
    List txnCtx × StateDB :=
  let r := inOrderLoop isRedo originStateDB list
  (gcCopiedStateDB r.1, r.2)

/-! ## Speculative executor -/

/-- The source function `CopyStateDb`: one `originStateDB.Copy()` per
transaction. -/
def CopyStateDb (originStateDB : StateDB) (list : List txnCtx) : List StateDB :=
  list.map (fun _ => originStateDB)

/-- The goroutine body of `executeTxnCtxListInConcurrency`: run one
transaction on its own copy. What the call writes to the copy is dropped with
the copy; what it emits stays in `tctx.ctx`. -/
def speculate (tctx : txnCtx) (cpDb : StateDB) : txnCtx :=
  let w := tctx.writing cpDb
  match w.out with
  | Except.error err =>
    { tctx with ctx := tctx.ctx.emit w.events, err := some err,
                receipt := some (handleTxnError err) }
  | Except.ok ps =>
    { tctx with ctx := tctx.ctx.emit w.events,
                receipt := some (handleTxnEvent (tctx.ctx.emit w.events) false),
                ps := some ps }

/-- The conflict-detection loop of `executeTxnCtxListInConcurrency` (the
`for _, tctx := range list` after `wg.Wait()`), returning `conflict`; `none`
is the panic of `tctx.ps.GetCtx()` on a nil `ps`. -/
def detectConflict : StateContext → List txnCtx → Option Bool
  | _, [] => some false
  | curtCtx, tctx :: rest =>
    if tctx.err ≠ none then detectConflict curtCtx rest
    else
      match tctx.ps with
      | none => none
      | some ps =>
        match curtCtx.IsConflict ps.GetCtx with
        | (true, _) => some true
        | (false, c) => detectConflict c rest

/-- The source function `mergeStateDB`; `none` is the panic of
`tctx.ps.MergeInto` on a nil `ps`. -/
def mergeStateDB : StateDB → List txnCtx → Option StateDB
  | originStateDB, [] => some originStateDB
  | originStateDB, tctx :: rest =>
    if tctx.err ≠ none then mergeStateDB originStateDB rest
    else
      match tctx.ps with
      | none => none
      | some ps => mergeStateDB (ps.MergeInto originStateDB) rest

/-- The source function `executeTxnCtxListInConcurrency`: the updated list,
and the state handed to `k.Solidity.SetStateDB`. -/
def executeTxnCtxListInConcurrency (originStateDB : StateDB) (list : List txnCtx) :
    Option (List txnCtx × StateDB) :=
  let copiedStateDBList := CopyStateDb originStateDB list
  let list := List.zipWith speculate list copiedStateDBList
  match detectConflict NewStateContext list with
  | none => none
  | some true => some (executeTxnCtxListInOrder originStateDB list true)
  | some false =>
    match mergeStateDB originStateDB list with
    | none => none
    | some merged => some (gcCopiedStateDB list, merged)

/-- The process-wide configuration as `parallel_evm.go` reads it:
`IsParallel` and `MaxConcurrency`. (`config/config.go` declares the integer
field under the name `Concurrency`.) -/
structure Config where
  IsParallel : Bool
  MaxConcurrency : Int

/-- The source function `executeTxnCtxList`, with `k.Solidity.StateDB()`
passed in. -/
def executeTxnCtxList (cfg : Config) (stateDB : StateDB) (list : List txnCtx) :
    Option (List txnCtx × StateDB) :=
  if cfg.IsParallel then executeTxnCtxListInConcurrency stateDB list
  else some (executeTxnCtxListInOrder stateDB list false)

/-! ## Preparer and block driver -/

/-- The receipts map `map[common.Hash]*types.Receipt`, as an association list
with at most one entry per key. -/
abbrev ReceiptMap := List (Hash × Option Receipt)

/-- Map assignment `receipts[h] = r`. -/
def ReceiptMap.set : ReceiptMap → Hash → Option Receipt → ReceiptMap
  | [], h, r => [(h, r)]
  | (h2, r2) :: rest, h, r =>
    if h2 = h then (h, r) :: rest else (h2, r2) :: ReceiptMap.set rest h r

/-- The zero value of `evm.TxRequest`. -/
def zeroReq : TxRequest := { Origin := 0, Address := none }

/-- Stands for the nil `writing` of a zero `txnCtx`; it is never called. -/
def zeroWriting : Writing := fun s => { stateDB := s, events := [], out := Except.error 0 }

/-- A context as `context.NewWriteContext` returns it: no events yet. It also
stands for the nil `ctx` of a zero `txnCtx`, which is never dereferenced. -/
def freshCtx : WriteContext := { Events := [] }

/-- The value `&txnCtx{}`. -/
def zeroTxnCtx : txnCtx :=
  { ctx := freshCtx, txn := none, writing := zeroWriting, req := zeroReq, err := none,
    ps := none, receipt := none }

/-- The goroutine body of `prepareTxnList`: on either failure only `receipt`
is assigned to the zero context; on success a context with `ctx`, `txn`,
`writing` and `req` is built. -/
def prepareOne (stxn : SignedTxn) : txnCtx :=
  match stxn.ctxErr with
  | some err => { zeroTxnCtx with receipt := some (handleTxnError err) }
  | none =>
    match stxn.bind with
    | Except.error err => { zeroTxnCtx with receipt := some (handleTxnError err) }
    | Except.ok req =>
      { ctx := freshCtx, txn := some stxn, writing := stxn.writing, req := req, err := none,
        ps := none, receipt := none }

/-- The compaction loop of `prepareTxnList` (`for _, subTxnCtx := range
txnCtxList`); `none` is the panic of `subTxnCtx.txn.TxnHash` on a nil `txn`. -/
def compactLoop : List txnCtx → List txnCtx → ReceiptMap → Option (List txnCtx × ReceiptMap)
  | [], prepared, receipts => some (prepared, receipts)
  | subTxnCtx :: rest, prepared, receipts =>
    if subTxnCtx.receipt = none then
      compactLoop rest (prepared ++ [subTxnCtx]) receipts
    else
      match subTxnCtx.txn with
      | none => none
      | some txn => compactLoop rest prepared (receipts.set txn.TxnHash subTxnCtx.receipt)

/-- The source function `prepareTxnList`, on `block.Txns`. -/
def prepareTxnList (stxns : List SignedTxn) : Option (List txnCtx × ReceiptMap) :=
  compactLoop (stxns.map prepareOne) [] []

/-- The first loop of `Execute`: run the batches one after another, each on the
state the previous one installed. -/
def executeBatches (cfg : Config) : StateDB → List (List txnCtx) →
    Option (List (List txnCtx) × StateDB)
  | stateDB, [] => some ([], stateDB)
  | stateDB, subList :: rest =>
    match executeTxnCtxList cfg stateDB subList with
    | none => none
    | some (subList2, stateDB2) =>
      match executeBatches cfg stateDB2 rest with
      | none => none
      | some (got, final) => some (subList2 :: got, final)

/-- The second loop of `Execute`: `receipts[c.txn.TxnHash] = c.receipt` for
every context of every batch; `none` is the panic on a nil `txn`. -/
def collectReceipts : List txnCtx → ReceiptMap → Option ReceiptMap
  | [], receipts => some receipts
  | c :: rest, receipts =>
    match c.txn with
    | none => none
    | some txn => collectReceipts rest (receipts.set txn.TxnHash c.receipt)

/-- The source function `Execute`, on `block.Txns`: the receipts handed to
`k.PostExecute` together with the world state after the last batch; `none` if
the function panics before it reaches `PostExecute`. -/
def Execute (cfg : Config) (stateDB : StateDB) (stxns : List SignedTxn) :
    Option (ReceiptMap × StateDB) :=
  match prepareTxnList stxns with
  | none => none
  | some (txnCtxList, receipts) =>
    match SplitTxnCtxList cfg.MaxConcurrency txnCtxList with
    | none => none
    | some got =>
      match executeBatches cfg stateDB got with
      | none => none
      | some (got2, final) =>
        match collectReceipts got2.flatten receipts with
        | none => none
        | some receipts2 => some (receipts2, final)

/-! ## Specification-side notions -/

/-- The pending state a context contributes to the batch context: the one it
carries, unless the context is errored. -/
def pendingOf (t : txnCtx) : Option PendingState := if t.err = none then t.ps else none

/-- The batch context of spec §4.4 after the listed contexts: the union of the
read sets and the union of the write sets of their non-errored pending
states. -/
def batchContext (earlier : List txnCtx) : StateContext :=
  { Read := (earlier.filterMap pendingOf).flatMap (fun p => p.sctx.Read),
    Write := (earlier.filterMap pendingOf).flatMap (fun p => p.sctx.Write) }

/-- The conflict condition of spec §4.4, as the spec words it: `P.ReadSet`
meets `C.WriteSet`, or `P.WriteSet` meets `C.WriteSet`, or `P.WriteSet` meets
`C.ReadSet`. -/
def psConflicts (P C : StateContext) : Prop :=
  (∃ k, k ∈ P.Read ∧ k ∈ C.Write) ∨ (∃ k, k ∈ P.Write ∧ k ∈ C.Write)
    ∨ (∃ k, k ∈ P.Write ∧ k ∈ C.Read)

/-- The context one iteration of the loop of `executeTxnCtxListInOrder`
stores back in `list[index]`. -/
def stepCtx (isRedo : Bool) (s : StateDB) (tctx : txnCtx) : txnCtx :=
  if tctx.err ≠ none then tctx
  else
    match (tctx.writing s).out with
    | Except.error err =>
      { tctx with ctx := tctx.ctx.emit (tctx.writing s).events, err := some err,
                  receipt := some (handleTxnError err) }
    | Except.ok ps =>
      { tctx with ctx := tctx.ctx.emit (tctx.writing s).events,
                  receipt := some (handleTxnEvent (tctx.ctx.emit (tctx.writing s).events) isRedo),
                  ps := some ps }

/-- The contents of `currStateDb` after one iteration of the loop of
`executeTxnCtxListInOrder`. -/
def stepState (s : StateDB) (tctx : txnCtx) : StateDB :=
  if tctx.err ≠ none then s
  else
    match (tctx.writing s).out with
    | Except.error _ => (tctx.writing s).stateDB
    | Except.ok ps => ps.GetStateDB

/-- The contents of `currStateDb` when the loop of `executeTxnCtxListInOrder`,
started on `origin`, reaches position `i`. -/
def handleBefore (origin : StateDB) (list : List txnCtx) : Nat → StateDB
  | 0 => origin
  | i + 1 =>
    match list[i]? with
    | none => handleBefore origin list i
    | some t => stepState (handleBefore origin list i) t

/-- The state the transaction at position `i` observes in a serial pass, as
spec §5 words it: position `0` observes the starting state; position `i + 1`
observes the post-state of position `i` if that one executed successfully, and
what position `i` observed otherwise. -/
def seenState (origin : StateDB) (list : List txnCtx) : Nat → StateDB
  | 0 => origin
  | i + 1 =>
    match list[i]? with
    | none => seenState origin list i
    | some t =>
      if t.err ≠ none then seenState origin list i
      else
        match (t.writing (seenState origin list i)).out with
        | Except.ok ps => ps.GetStateDB
        | Except.error _ => seenState origin list i

/-- Position `j` executed successfully in the serial pass, with post-state
`post`: it carried no error and its `writing` succeeded on the state it
observed. -/
def succeedsAt (origin : StateDB) (list : List txnCtx) (j : Nat) (post : StateDB) : Prop :=
  ∃ t ps, list[j]? = some t ∧ t.err = none
    ∧ (t.writing (seenState origin list j)).out = Except.ok ps ∧ post = ps.GetStateDB

/-- The state `s` is the post-state of the nearest position before `i` that
executed successfully, or the starting state if no position before `i` did. -/
def nearestSuccess (origin : StateDB) (list : List txnCtx) (i : Nat) (s : StateDB) : Prop :=
  (∃ j, j < i ∧ succeedsAt origin list j s
      ∧ ∀ k, j < k → k < i → ∀ s2, ¬ succeedsAt origin list k s2)
  ∨ ((∀ k, k < i → ∀ s2, ¬ succeedsAt origin list k s2) ∧ s = origin)

/-- Every run of the serial pass from `origin` that returns an error leaves
the state handle as it found it. -/
def FailedRunsRevert (origin : StateDB) (list : List txnCtx) : Prop :=
  ∀ i t e, list[i]? = some t → t.err = none →
    (t.writing (handleBefore origin list i)).out = Except.error e →
    (t.writing (handleBefore origin list i)).stateDB = handleBefore origin list i

/-- Every transaction that fails on the snapshot of its speculative run fails
with the same error on the state the serial pass from `start` gives it, and
leaves that state as it found it. -/
def FailuresCarryOver (snapshot start : StateDB) (list : List txnCtx) : Prop :=
  ∀ i t e, list[i]? = some t → (t.writing snapshot).out = Except.error e →
    (t.writing (handleBefore start list i)).out = Except.error e
    ∧ (t.writing (handleBefore start list i)).stateDB = handleBefore start list i

/-- The read set, write set and deltas reported by every successful
speculative run are accurate for the serial pass from `start`: the deltas
touch only keys of the write set, and if the state the serial pass gives the
transaction agrees with the snapshot on the read set, the transaction
succeeds there with the same events and leaves that state with the deltas
written through. -/
def FootprintsHold (snapshot start : StateDB) (list : List txnCtx) : Prop :=
  ∀ i t p, list[i]? = some t → (t.writing snapshot).out = Except.ok p →
    (∀ kv ∈ p.deltas, kv.1 ∈ p.sctx.Write)
    ∧ ((∀ k ∈ p.sctx.Read, handleBefore start list i k = snapshot k) →
        ∃ p2, (t.writing (handleBefore start list i)).out = Except.ok p2
          ∧ p2.GetStateDB = applyDeltas p.deltas (handleBefore start list i)
          ∧ (t.writing (handleBefore start list i)).events = (t.writing snapshot).events)

/-- A closure that leaves the state handle as it found it whenever it
returns an error. -/
def RevertsOnFailure (w : Writing) : Prop :=
  ∀ s e, (w s).out = Except.error e → (w s).stateDB = s

/-- A closure that, if it fails on `snapshot`, fails with the same error on
every state and leaves it as it found it. -/
def FailsAlikeFrom (snapshot : StateDB) (w : Writing) : Prop :=
  ∀ e, (w snapshot).out = Except.error e →
    ∀ s, (w s).out = Except.error e ∧ (w s).stateDB = s

/-- A closure whose successful run on `snapshot` reports accurate sets and
deltas: the deltas touch only keys of the write set, and on every state that
agrees with `snapshot` on the read set the closure succeeds with the same
events and leaves the state with the deltas written through. -/
def AccurateAt (snapshot : StateDB) (w : Writing) : Prop :=
  ∀ p, (w snapshot).out = Except.ok p →
    (∀ kv ∈ p.deltas, kv.1 ∈ p.sctx.Write)
    ∧ ∀ s2, (∀ k ∈ p.sctx.Read, s2 k = snapshot k) →
        ∃ p2, (w s2).out = Except.ok p2 ∧ p2.GetStateDB = applyDeltas p.deltas s2
          ∧ (w s2).events = (w snapshot).events

/-! ## Sample transactions -/

/-- A closure that writes `v` under key `k` and reads nothing. -/
def writeKey (k : Key) (v : Val) : Writing := fun s =>
  { stateDB := fun x => if x = k then v else s x, events := [k],
    out := Except.ok { stateDB := fun x => if x = k then v else s x, deltas := [(k, v)],
                       sctx := { Read := [], Write := [k] } } }

/-- A closure that reads key `g`, reverts with error `e` when it holds `0`,
and otherwise writes `v` under key `k`. -/
def guardedWrite (g k : Key) (v : Val) (e : Error) : Writing := fun s =>
  if s g = 0 then { stateDB := s, events := [], out := Except.error e }
  else
    { stateDB := fun x => if x = k then v else s x, events := [k],
      out := Except.ok { stateDB := fun x => if x = k then v else s x, deltas := [(k, v)],
                         sctx := { Read := [g], Write := [k] } } }

/-- A closure that writes `v` under key `k` of the handle and then returns
the error `e`. -/
def writeThenFail (k : Key) (v : Val) (e : Error) : Writing := fun s =>
  { stateDB := fun x => if x = k then v else s x, events := [], out := Except.error e }

/-- A closure that reads key `0` and writes `s 0 + 5` under key `1`, with
both keys reported. -/
def copyWrite : Writing := fun s =>
  { stateDB := fun x => if x = 1 then s 0 + 5 else s x, events := [1],
    out := Except.ok { stateDB := fun x => if x = 1 then s 0 + 5 else s x,
                       deltas := [(1, s 0 + 5)], sctx := { Read := [0], Write := [1] } } }

/-- A signed transaction that passes preparation. -/
def goodTxn (hash : Hash) (origin : Addr) (address : Option Addr) (w : Writing) : SignedTxn :=
  { TxnHash := hash, ctxErr := none, bind := Except.ok { Origin := origin, Address := address },
    writing := w }

/-- A signed transaction whose payload does not bind. -/
def unbindableTxn (hash : Hash) (e : Error) : SignedTxn :=
  { TxnHash := hash, ctxErr := none, bind := Except.error e, writing := zeroWriting }

/-- The prepared context of `goodTxn`. -/
def liveCtx (hash : Hash) (origin : Addr) (address : Option Addr) (w : Writing) : txnCtx :=
  prepareOne (goodTxn hash origin address w)

/-- The all-zero world state. -/
def emptyState : StateDB := fun _ => 0

/-- A world state holding `1` under key `5` and `0` elsewhere. -/
def fundedState : StateDB := fun k => if k = 5 then 1 else 0

/-- Two transactions of distinct origins and targets: the first writes key
`0`, the second reads key `0` and reverts when it is still `0`. -/
def dependentBatch : List txnCtx :=
  [liveCtx 1 10 (some 20) (writeKey 0 1), liveCtx 2 11 (some 21) (guardedWrite 0 1 1 7)]

/-- Three transactions of distinct origins and targets writing distinct keys. -/
def independentBatch : List txnCtx :=
  [liveCtx 1 10 (some 20) (writeKey 0 1), liveCtx 2 11 (some 21) (writeKey 1 1),
   liveCtx 3 12 none (writeKey 2 1)]

/-- A context as the speculative run leaves it on success. -/
def executedCtx (origin : Addr) (reads writes : List Key) : txnCtx :=
  { ctx := freshCtx, txn := none, writing := zeroWriting,
    req := { Origin := origin, Address := none }, err := none,
    ps := some { stateDB := emptyState, deltas := [],
                 sctx := { Read := reads, Write := writes } },
    receipt := some (Receipt.success []) }

/-- A closure that reverts with error `e` on every state. -/
def revertAlways (e : Error) : Writing := fun s =>
  { stateDB := s, events := [], out := Except.error e }

/-- A closure that writes `s 0 + 5` under key `1` without reporting key `0`
in its read set. -/
def understatedWrite : Writing := fun s =>
  { stateDB := fun x => if x = 1 then s 0 + 5 else s x, events := [1],
    out := Except.ok { stateDB := fun x => if x = 1 then s 0 + 5 else s x,
                       deltas := [(1, s 0 + 5)], sctx := { Read := [], Write := [1] } } }

/-- Spec §8 scenario 5: the second of three independent transactions
reverts. -/
def revertBatch : List txnCtx :=
  [liveCtx 1 10 (some 20) (writeKey 0 1), liveCtx 2 11 (some 21) (revertAlways 7),
   liveCtx 3 12 none (guardedWrite 5 2 1 9)]

/-- Two independent transactions, the second with an understated read set. -/
def understatedBatch : List txnCtx :=
  [liveCtx 1 10 (some 20) (writeKey 0 1), liveCtx 2 11 (some 21) understatedWrite]

/-- Spec §8 scenario 3: two transactions of distinct origins and targets, the
second reading the key the first writes, both with accurate sets. -/
def conflictBatch : List txnCtx :=
  [liveCtx 1 10 (some 20) (writeKey 0 1), liveCtx 2 11 (some 21) copyWrite]

/-- Two transactions of distinct origins and targets: the first writes key
`0` and then fails, the second reads key `0` and reverts when it is `0`. -/
def leakyBatch : List txnCtx :=
  [liveCtx 1 10 (some 20) (writeThenFail 0 1 7), liveCtx 2 11 (some 21) (guardedWrite 0 1 1 9)]

/-- Spec §8 scenario 2, with a third transaction of another origin. -/
def sameOriginBatch : List txnCtx :=
  [liveCtx 1 10 none (writeKey 0 1), liveCtx 2 10 none (writeKey 1 1),
   liveCtx 3 11 none (writeKey 2 1)]

/-- Spec §8 scenario 4: three transactions, the middle one with an unbindable
payload. -/
def failingBlock : List SignedTxn :=
  [goodTxn 1 10 (some 20) (writeKey 0 1), unbindableTxn 2 7,
   goodTxn 3 11 (some 21) (writeKey 1 1)]

/-- Two executed contexts: the second read key `5`, which the first wrote. -/
def executedBatch : List txnCtx :=
  [executedCtx 10 [] [5], executedCtx 11 [5] [6]]

/-! ## Partitioner: lemmas -/

theorem conflictWith_iff (curTxn compare : txnCtx) :
    conflictWith curTxn compare = true ↔ staticConflict curTxn compare := by
  unfold conflictWith staticConflict
  split_ifs with h1 h2 h3 h4
  · simp only [true_iff]
    obtain ⟨⟨hA, -⟩, hEq⟩ := h1
    obtain ⟨a, ha⟩ := Option.ne_none_iff_exists'.1 hA
    exact Or.inl ⟨a, ha, hEq.trans ha⟩
  · simp only [true_iff]
    exact Or.inr (Or.inr (Or.inl h2.2))
  · simp only [true_iff]
    exact Or.inr (Or.inl h3.2.symm)
  · simp only [true_iff]
    exact Or.inr (Or.inr (Or.inr h4.symm))
  · simp only [Bool.false_eq_true, false_iff]
    rintro (⟨a, hA, hB⟩ | h | h | h)
    · exact h1 ⟨⟨by simp [hA], by simp [hB]⟩, hB.trans hA.symm⟩
    · exact h3 ⟨by simp [h], h.symm⟩
    · exact h2 ⟨by simp [h], h⟩
    · exact h4 h.symm

theorem staticConflict_symm {A B : txnCtx} (h : staticConflict A B) : staticConflict B A := by
  rcases h with ⟨a, h1, h2⟩ | h | h | h
  · exact Or.inl ⟨a, h2, h1⟩
  · exact Or.inr (Or.inr (Or.inl h))
  · exact Or.inr (Or.inl h)
  · exact Or.inr (Or.inr (Or.inr h.symm))

theorem checkAddressConflict_iff (t : txnCtx) (l : List txnCtx) :
    checkAddressConflict t l = true ↔ ∃ c ∈ l, staticConflict t c := by
  induction l with
  | nil => simp [checkAddressConflict]
  | cons c rest ih =>
    unfold checkAddressConflict
    by_cases hc : conflictWith t c = true
    · simp only [hc, if_true, true_iff]
      exact ⟨c, List.mem_cons_self _ _, (conflictWith_iff t c).1 hc⟩
    · simp only [hc, if_false, Bool.false_eq_true, ih, List.mem_cons]
      constructor
      · rintro ⟨d, hd, hcd⟩
        exact ⟨d, Or.inr hd, hcd⟩
      · rintro ⟨d, hd | hd, hcd⟩
        · subst hd
          exact absurd ((conflictWith_iff _ _).2 hcd) hc
        · exact ⟨d, hd, hcd⟩

theorem checkAddressConflict_nil (t : txnCtx) : checkAddressConflict t [] = false := rfl

theorem splitLoop_eq_splitRest (maxc : Int) (list : List txnCtx) :
    ∀ (fuel cur : Nat) (curList : List txnCtx) (got : List (List txnCtx)),
      2 * (list.length - cur) + min curList.length 1 + 1 ≤ fuel →
      splitLoop maxc list fuel cur curList got
        = some (splitRest maxc (list.drop cur) curList got) := by
  intro fuel
  induction fuel with
  | zero => intro cur curList got h; omega
  | succ fuel ih =>
    intro cur curList got h
    unfold splitLoop
    cases hget : list[cur]? with
    | none =>
      have hlen : list.length ≤ cur := by
        rcases Nat.lt_or_ge cur list.length with hlt | hge
        · rw [List.getElem?_eq_getElem hlt] at hget; cases hget
        · exact hge
      simp [List.drop_eq_nil_of_le hlen, splitRest]
    | some t =>
      have hlt : cur < list.length := by
        rcases Nat.lt_or_ge cur list.length with hlt | hge
        · exact hlt
        · rw [List.getElem?_eq_none hge] at hget; cases hget
      have hdrop : list.drop cur = t :: list.drop (cur + 1) := by
        rw [List.getElem?_eq_getElem hlt] at hget
        cases hget
        exact List.drop_eq_getElem_cons hlt
      simp only [hdrop]
      by_cases hc : checkAddressConflict t curList = true
      · have hne : curList ≠ [] := by
          rintro rfl
          simp [checkAddressConflict] at hc
        have hpos : 0 < curList.length := List.length_pos.2 hne
        have hfuel : 2 * (list.length - cur) + min ([] : List txnCtx).length 1 + 1 ≤ fuel := by
          simp only [List.length_nil]
          omega
        simp only [hc, if_true]
        rw [ih cur [] (got ++ [curList]) hfuel, hdrop]
        conv_lhs => unfold splitRest
        conv_rhs => unfold splitRest
        simp only [checkAddressConflict_nil, hc, if_true, Bool.false_eq_true, if_false]
      · have hfuel : ∀ cl : List txnCtx,
            2 * (list.length - (cur + 1)) + min cl.length 1 + 1 ≤ fuel := by
          intro cl
          omega
        simp only [hc, if_false, Bool.false_eq_true]
        conv_rhs => unfold splitRest
        simp only [hc, if_false, Bool.false_eq_true]
        by_cases hm : ((curList ++ [t]).length : Int) ≥ maxc
        · simp only [hm, if_true]
          exact ih _ _ _ (hfuel _)
        · simp only [hm, if_false]
          exact ih _ _ _ (hfuel _)

theorem SplitTxnCtxList_eq (maxc : Int) (list : List txnCtx) :
    SplitTxnCtxList maxc list = some (splitRest maxc list [] []) := by
  unfold SplitTxnCtxList
  have h := splitLoop_eq_splitRest maxc list (2 * list.length + 1) 0 [] [] (by simp)
  simpa using h

theorem splitRest_flatten (maxc : Int) :
    ∀ (l curList : List txnCtx) (got : List (List txnCtx)),
      (splitRest maxc l curList got).flatten = got.flatten ++ curList ++ l := by
  intro l
  induction l with
  | nil =>
    intro curList got
    unfold splitRest
    split
    · simp
    · rename_i h
      have : curList = [] := List.length_eq_zero.1 (by omega)
      simp [this]
  | cons t rest ih =>
    intro curList got
    unfold splitRest
    split_ifs <;> rw [ih] <;> simp

theorem splitRest_pairwise (maxc : Int) :
    ∀ (l curList : List txnCtx) (got : List (List txnCtx)),
      (∀ b ∈ got, b.Pairwise (fun A B => ¬ staticConflict A B)) →
      curList.Pairwise (fun A B => ¬ staticConflict A B) →
      ∀ b ∈ splitRest maxc l curList got, b.Pairwise (fun A B => ¬ staticConflict A B) := by
  intro l
  induction l with
  | nil =>
    intro curList got hgot hcur b hb
    unfold splitRest at hb
    split at hb
    · rcases List.mem_append.1 hb with h | h
      · exact hgot b h
      · rw [List.mem_singleton.1 h]; exact hcur
    · exact hgot b hb
  | cons t rest ih =>
    intro curList got hgot hcur
    have hgot2 : ∀ b ∈ got ++ [curList], b.Pairwise (fun A B => ¬ staticConflict A B) := by
      intro b hb
      rcases List.mem_append.1 hb with h | h
      · exact hgot b h
      · rw [List.mem_singleton.1 h]; exact hcur
    have hone : ([] ++ [t] : List txnCtx).Pairwise (fun A B => ¬ staticConflict A B) := by
      simp
    unfold splitRest
    split_ifs with hc hm hm
    · apply ih
      · intro b hb
        rcases List.mem_append.1 hb with h | h
        · exact hgot2 b h
        · rw [List.mem_singleton.1 h]; exact hone
      · exact List.Pairwise.nil
    · exact ih _ _ hgot2 hone
    · have hnew : (curList ++ [t]).Pairwise (fun A B => ¬ staticConflict A B) := by
        rw [List.pairwise_append]
        refine ⟨hcur, by simp, ?_⟩
        intro a ha b hb hab
        rw [List.mem_singleton.1 hb] at hab
        exact hc ((checkAddressConflict_iff t curList).2 ⟨a, ha, staticConflict_symm hab⟩)
      apply ih
      · intro b hb
        rcases List.mem_append.1 hb with h | h
        · exact hgot b h
        · rw [List.mem_singleton.1 h]; exact hnew
      · exact List.Pairwise.nil
    · have hnew : (curList ++ [t]).Pairwise (fun A B => ¬ staticConflict A B) := by
        rw [List.pairwise_append]
        refine ⟨hcur, by simp, ?_⟩
        intro a ha b hb hab
        rw [List.mem_singleton.1 hb] at hab
        exact hc ((checkAddressConflict_iff t curList).2 ⟨a, ha, staticConflict_symm hab⟩)
      exact ih _ _ hgot hnew

theorem splitRest_length_le (maxc : Int) (hmax : 1 ≤ maxc) :
    ∀ (l curList : List txnCtx) (got : List (List txnCtx)),
      (∀ b ∈ got, (b.length : Int) ≤ maxc) → (curList.length : Int) < maxc →
      ∀ b ∈ splitRest maxc l curList got, (b.length : Int) ≤ maxc := by
  intro l
  induction l with
  | nil =>
    intro curList got hgot hcur b hb
    unfold splitRest at hb
    split at hb
    · rcases List.mem_append.1 hb with h | h
      · exact hgot b h
      · rw [List.mem_singleton.1 h]; omega
    · exact hgot b hb
  | cons t rest ih =>
    intro curList got hgot hcur
    have hgot2 : ∀ b ∈ got ++ [curList], (b.length : Int) ≤ maxc := by
      intro b hb
      rcases List.mem_append.1 hb with h | h
      · exact hgot b h
      · rw [List.mem_singleton.1 h]; omega
    unfold splitRest
    split_ifs with hc hm hm
    · apply ih
      · intro b hb
        rcases List.mem_append.1 hb with h | h
        · exact hgot2 b h
        · rw [List.mem_singleton.1 h]; simpa using hmax
      · simpa using hmax
    · apply ih _ _ hgot2
      simp only [ge_iff_le, not_le] at hm
      exact hm
    · apply ih
      · intro b hb
        rcases List.mem_append.1 hb with h | h
        · exact hgot b h
        · rw [List.mem_singleton.1 h]
          simp only [List.length_append, List.length_singleton, Nat.cast_add, Nat.cast_one]
          omega
      · simpa using hmax
    · apply ih _ _ hgot
      simp only [ge_iff_le, not_le] at hm
      exact hm

theorem chunkSizes_zero (m : Nat) : chunkSizes m 0 = [] := by
  simp [chunkSizes]

theorem chunkSizes_lt (m k : Nat) (h0 : 0 < k) (hk : k < m) : chunkSizes m k = [k] := by
  have hne : k ≠ 0 := by omega
  simp [chunkSizes, Nat.div_eq_of_lt hk, Nat.mod_eq_of_lt hk, hne]

theorem chunkSizes_add (m n : Nat) (hm : 0 < m) :
    chunkSizes m (m + n) = m :: chunkSizes m n := by
  have h1 : (m + n) / m = n / m + 1 := by
    rw [Nat.add_comm, Nat.add_div_right n hm]
  have h2 : (m + n) % m = n % m := Nat.add_mod_left m n
  simp [chunkSizes, h1, h2, List.replicate_succ]

theorem chunkSizes_length (m n : Nat) (hm : 0 < m) :
    (chunkSizes m n).length = (n + m - 1) / m := by
  have hdm := Nat.div_add_mod n m
  have hr := Nat.mod_lt n hm
  by_cases h0 : n % m = 0
  · have e : n + m - 1 = (m - 1) + m * (n / m) := by omega
    rw [e, Nat.add_mul_div_left _ _ hm, Nat.div_eq_of_lt (by omega)]
    simp [chunkSizes, h0]
  · have e : n + m - 1 = (n % m - 1) + m * (n / m + 1) := by
      rw [Nat.mul_add]; omega
    rw [e, Nat.add_mul_div_left _ _ hm, Nat.div_eq_of_lt (by omega)]
    simp [chunkSizes, h0]

theorem splitRest_sizes (maxc : Int) (hmax : 1 ≤ maxc) :
    ∀ (l curList : List txnCtx) (got : List (List txnCtx)),
      (curList ++ l).Pairwise (fun A B => ¬ staticConflict A B) →
      (curList.length : Int) < maxc →
      (splitRest maxc l curList got).map List.length
        = got.map List.length ++ chunkSizes maxc.toNat (curList.length + l.length) := by
  have hm0 : 0 < maxc.toNat := by omega
  intro l
  induction l with
  | nil =>
    intro curList got _ hcur
    unfold splitRest
    split
    · rename_i hpos
      rw [List.length_nil, Nat.add_zero, chunkSizes_lt _ _ hpos (by omega)]
      simp
    · rename_i hpos
      have : curList.length = 0 := by omega
      simp [this, chunkSizes_zero]
  | cons t rest ih =>
    intro curList got hp hcur
    have hnc : ¬ checkAddressConflict t curList = true := by
      rw [checkAddressConflict_iff]
      rintro ⟨c, hc, hct⟩
      rw [List.pairwise_append] at hp
      exact hp.2.2 c hc t (List.mem_cons_self _ _) (staticConflict_symm hct)
    unfold splitRest
    simp only [hnc, if_false, Bool.false_eq_true]
    split_ifs with hm
    · have hlen : curList.length + 1 = maxc.toNat := by
        simp only [List.length_append, List.length_singleton, Nat.cast_add, Nat.cast_one] at hm
        omega
      have hrest : (([] : List txnCtx) ++ rest).Pairwise (fun A B => ¬ staticConflict A B) := by
        rw [List.pairwise_append] at hp
        simpa using (List.pairwise_cons.1 hp.2.1).2
      rw [ih [] _ hrest (by simpa using hmax)]
      have e : curList.length + (t :: rest).length = maxc.toNat + rest.length := by
        simp only [List.length_cons]; omega
      rw [e, chunkSizes_add _ _ hm0]
      simp [hlen]
    · have hp2 : ((curList ++ [t]) ++ rest).Pairwise (fun A B => ¬ staticConflict A B) := by
        simpa using hp
      have hlt : (((curList ++ [t]).length : Nat) : Int) < maxc := by
        simp only [ge_iff_le, not_le] at hm
        exact hm
      rw [ih _ _ hp2 hlt]
      have e : (curList ++ [t]).length + rest.length = curList.length + (t :: rest).length := by
        rw [List.length_append, List.length_singleton, List.length_cons, Nat.add_assoc,
          Nat.add_comm 1]
      rw [e]

theorem closedBy_append (maxc : Int) (B cur : List txnCtx) (t : txnCtx)
    (hcur : cur ≠ []) (h : closedBy maxc B cur) : closedBy maxc B (cur ++ [t]) := by
  rcases h with h | ⟨x, hx, hc⟩
  · exact Or.inl h
  · refine Or.inr ⟨x, ?_, hc⟩
    cases cur with
    | nil => exact absurd rfl hcur
    | cons a r => simpa using hx

theorem chain_snoc (maxc : Int) (got : List (List txnCtx)) (B : List txnCtx)
    (hch : List.Chain' (closedBy maxc) got)
    (hlast : ∀ L ∈ got.getLast?, closedBy maxc L B) :
    List.Chain' (closedBy maxc) (got ++ [B]) := by
  rw [List.chain'_append]
  refine ⟨hch, List.chain'_singleton _, ?_⟩
  intro L hL y hy
  simp only [List.head?_cons, Option.mem_def, Option.some.injEq] at hy
  subst hy
  exact hlast L hL

theorem splitRest_chain (maxc : Int) (hmax : 1 ≤ maxc) :
    ∀ (l curList : List txnCtx) (got : List (List txnCtx)),
      List.Chain' (closedBy maxc) got →
      (∀ L ∈ got.getLast?, (L.length : Int) = maxc ∨ (curList ≠ [] ∧ closedBy maxc L curList)) →
      (curList.length : Int) < maxc →
      List.Chain' (closedBy maxc) (splitRest maxc l curList got) := by
  intro l
  induction l with
  | nil =>
    intro curList got hch hlast hcur
    unfold splitRest
    split
    · apply chain_snoc _ _ _ hch
      intro L hL
      rcases hlast L hL with h | h
      · exact Or.inl h
      · exact h.2
    · exact hch
  | cons t rest ih =>
    intro curList got hch hlast hcur
    have hclose : ∀ B, (∀ L ∈ got.getLast?, closedBy maxc L B) →
        List.Chain' (closedBy maxc) (got ++ [B]) := fun B h => chain_snoc _ _ _ hch h
    have hlastc : ∀ L ∈ got.getLast?, closedBy maxc L curList := by
      intro L hL
      rcases hlast L hL with h | h
      · exact Or.inl h
      · exact h.2
    have hlastt : ∀ L ∈ got.getLast?, closedBy maxc L (curList ++ [t]) := by
      intro L hL
      rcases hlast L hL with h | h
      · exact Or.inl h
      · exact closedBy_append _ _ _ _ h.1 h.2
    unfold splitRest
    split_ifs with hc hm hm
    · have hconf : closedBy maxc curList ([] ++ [t]) :=
        Or.inr ⟨t, rfl, (checkAddressConflict_iff t curList).1 hc⟩
      apply ih
      · apply chain_snoc _ _ _ (hclose _ hlastc)
        intro L hL
        rw [List.getLast?_concat] at hL
        cases hL
        exact hconf
      · intro L hL
        rw [List.getLast?_concat] at hL
        cases hL
        left
        simp only [List.nil_append, List.length_singleton, Nat.cast_one] at hm ⊢
        omega
      · simpa using hmax
    · have hconf : closedBy maxc curList ([] ++ [t]) :=
        Or.inr ⟨t, rfl, (checkAddressConflict_iff t curList).1 hc⟩
      apply ih _ _ (hclose _ hlastc)
      · intro L hL
        rw [List.getLast?_concat] at hL
        cases hL
        exact Or.inr ⟨by simp, hconf⟩
      · simp only [ge_iff_le, not_le] at hm
        exact hm
    · apply ih _ _ (hclose _ hlastt)
      · intro L hL
        rw [List.getLast?_concat] at hL
        cases hL
        left
        simp only [List.length_append, List.length_singleton, Nat.cast_add, Nat.cast_one] at hm ⊢
        omega
      · simpa using hmax
    · apply ih _ _ hch
      · intro L hL
        rcases hlast L hL with h | h
        · exact Or.inl h
        · exact Or.inr ⟨by simp, closedBy_append _ _ _ _ h.1 h.2⟩
      · simp only [ge_iff_le, not_le] at hm
        exact hm

/-! ## Partitioner: the claims -/

/-- C2. For every list of transaction contexts and every `MaxConcurrency`,
`SplitTxnCtxList` returns, and concatenating the batches it returns, in order,
gives exactly the input list. -/
theorem SplitTxnCtxList_flatten (maxc : Int) (list : List txnCtx) :
    ∃ batches, SplitTxnCtxList maxc list = some batches ∧ batches.flatten = list := by
  refine ⟨_, SplitTxnCtxList_eq maxc list, ?_⟩
  simp [splitRest_flatten]

/-- C3. For every input list and every `MaxConcurrency`, `SplitTxnCtxList`
returns, and in every batch it returns no two distinct positions hold
transactions that statically conflict (spec §4.2 predicate). -/
theorem SplitTxnCtxList_static_independence (maxc : Int) (list : List txnCtx) :
    ∃ batches, SplitTxnCtxList maxc list = some batches ∧
      ∀ b ∈ batches, ∀ (i j : Nat) (hi : i < b.length) (hj : j < b.length),
        i ≠ j → ¬ staticConflict b[i] b[j] := by
  refine ⟨_, SplitTxnCtxList_eq maxc list, ?_⟩
  intro b hb i j hi hj hij
  have hp := splitRest_pairwise maxc list [] [] (by simp) List.Pairwise.nil b hb
  rw [List.pairwise_iff_getElem] at hp
  rcases Nat.lt_or_gt_of_ne hij with h | h
  · exact hp i j hi hj h
  · exact fun hc => hp j i hj hi h (staticConflict_symm hc)

/-- C4. For every input list and every `MaxConcurrency >= 1`,
`SplitTxnCtxList` returns, and every batch it returns has length at most
`MaxConcurrency`. -/
theorem SplitTxnCtxList_batch_size (maxc : Int) (list : List txnCtx) (hmax : 1 ≤ maxc) :
    ∃ batches, SplitTxnCtxList maxc list = some batches ∧
      ∀ b ∈ batches, (b.length : Int) ≤ maxc := by
  refine ⟨_, SplitTxnCtxList_eq maxc list, ?_⟩
  exact splitRest_length_le maxc hmax list [] [] (by simp) (by simpa using hmax)

/-- C10. `SplitTxnCtxList` terminates on every input list and every
`MaxConcurrency`, zero and negative values included: the loop exits within
`2 * len(list) + 1` iterations, with the same batches for any larger number of
iterations allowed. The reason is as the claim gives it:
`checkAddressConflict` against an empty batch is false, so an iteration that
takes the conflict branch (cursor kept, batch closed and emptied) is followed
by one that appends the same transaction and advances the cursor. -/
theorem SplitTxnCtxList_terminates (maxc : Int) (list : List txnCtx) :
    (∃ batches, SplitTxnCtxList maxc list = some batches ∧
        ∀ fuel, 2 * list.length + 1 ≤ fuel → splitLoop maxc list fuel 0 [] [] = some batches)
      ∧ (∀ t, checkAddressConflict t [] = false)
      ∧ (∀ fuel cur curList got t, list[cur]? = some t →
          checkAddressConflict t curList = true →
          splitLoop maxc list (fuel + 2) cur curList got
            = if (1 : Int) ≥ maxc then splitLoop maxc list fuel (cur + 1) [] (got ++ [curList] ++ [[t]])
              else splitLoop maxc list fuel (cur + 1) [t] (got ++ [curList])) := by
  refine ⟨⟨_, SplitTxnCtxList_eq maxc list, ?_⟩, fun _ => rfl, ?_⟩
  · intro fuel hfuel
    have h := splitLoop_eq_splitRest maxc list fuel 0 [] [] (by simpa using hfuel)
    simpa using h
  · intro fuel cur curList got t hget hc
    rw [splitLoop]
    simp only [hget, hc, if_true]
    rw [splitLoop]
    simp only [hget, checkAddressConflict_nil, Bool.false_eq_true, if_false, List.nil_append,
      List.length_singleton, Nat.cast_one, List.append_assoc]

/-- C8. For every list of `n` transactions that are pairwise free of static
conflict and every `MaxConcurrency` `m >= 1`, `SplitTxnCtxList` returns
`ceil(n/m)` batches whose sizes, in order, are `m` for each of the `n / m`
full batches, followed by `n mod m` when `m` does not divide `n`. -/
theorem SplitTxnCtxList_independent_sizes (maxc : Int) (list : List txnCtx)
    (hmax : 1 ≤ maxc)
    (hind : list.Pairwise (fun A B => ¬ staticConflict A B)) :
    ∃ batches, SplitTxnCtxList maxc list = some batches ∧
      batches.map List.length = chunkSizes maxc.toNat list.length ∧
      batches.length = (list.length + maxc.toNat - 1) / maxc.toNat := by
  have hsz := splitRest_sizes maxc hmax list [] [] (by simpa using hind) (by simpa using hmax)
  simp only [List.map_nil, List.nil_append, List.length_nil, Nat.zero_add] at hsz
  refine ⟨_, SplitTxnCtxList_eq maxc list, hsz, ?_⟩
  have h := congrArg List.length hsz
  rw [List.length_map, chunkSizes_length _ _ (by omega)] at h
  exact h

/-- C9. `SplitTxnCtxList` is greedy: for every input list and every
`MaxConcurrency >= 1`, every two consecutive output batches `B`, `B2` satisfy
`closedBy`: `B` has exactly `MaxConcurrency` transactions, or the first
transaction of `B2` statically conflicts with some transaction of `B`. -/
theorem SplitTxnCtxList_greedy (maxc : Int) (list : List txnCtx) (hmax : 1 ≤ maxc) :
    ∃ batches, SplitTxnCtxList maxc list = some batches ∧
      List.Chain' (closedBy maxc) batches := by
  refine ⟨_, SplitTxnCtxList_eq maxc list, ?_⟩
  exact splitRest_chain maxc hmax list [] [] List.chain'_nil (by simp) (by simpa using hmax)

/-! ## Conflict detector -/

theorem conflicts_iff (C P : StateContext) :
    C.conflicts P = true ↔ psConflicts P C := by
  simp [StateContext.conflicts, meets, psConflicts, List.any_eq_true, or_assoc]

theorem merge_assoc (C P X : StateContext) : (C.merge P).merge X = C.merge (P.merge X) := by
  simp [StateContext.merge, List.append_assoc]

theorem batchContext_nil : batchContext [] = NewStateContext := rfl

theorem merge_new (C : StateContext) : C.merge NewStateContext = C := by
  simp [StateContext.merge, NewStateContext]

theorem new_merge (C : StateContext) : NewStateContext.merge C = C := by
  simp [StateContext.merge, NewStateContext]

theorem batchContext_cons_err (t : txnCtx) (l : List txnCtx) (h : t.err ≠ none) :
    batchContext (t :: l) = batchContext l := by
  simp [batchContext, pendingOf, h]

theorem batchContext_cons_ok (t : txnCtx) (p : PendingState) (l : List txnCtx)
    (h : t.err = none) (hp : t.ps = some p) :
    batchContext (t :: l) = p.sctx.merge (batchContext l) := by
  simp [batchContext, pendingOf, h, hp, StateContext.merge]

theorem detectConflict_general :
    ∀ (list : List txnCtx) (C : StateContext),
      (∀ t ∈ list, t.err = none → t.ps ≠ none) →
      ∃ b, detectConflict C list = some b ∧
        (b = true ↔ ∃ i t p, list[i]? = some t ∧ t.err = none ∧ t.ps = some p
            ∧ psConflicts p.GetCtx (C.merge (batchContext (list.take i)))) := by
  intro list
  induction list with
  | nil =>
    intro C _
    exact ⟨false, rfl, by simp⟩
  | cons t rest ih =>
    intro C hexec
    have hrest : ∀ u ∈ rest, u.err = none → u.ps ≠ none :=
      fun u hu => hexec u (List.mem_cons_of_mem _ hu)
    by_cases herr : t.err = none
    · obtain ⟨p, hp⟩ := Option.ne_none_iff_exists'.1 (hexec t (List.mem_cons_self _ _) herr)
      by_cases hc : C.conflicts p.GetCtx = true
      · refine ⟨true, ?_, ?_⟩
        · simp [detectConflict, herr, hp, StateContext.IsConflict, hc]
        · simp only [true_iff]
          refine ⟨0, t, p, by simp, herr, hp, ?_⟩
          rw [List.take_zero, batchContext_nil, merge_new]
          exact (conflicts_iff _ _).1 hc
      · obtain ⟨b, hb, hiff⟩ := ih (C.merge p.GetCtx) hrest
        refine ⟨b, ?_, ?_⟩
        · simp [detectConflict, herr, hp, StateContext.IsConflict, hc, hb]
        · rw [hiff]
          constructor
          · rintro ⟨j, u, q, hu, hue, hq, hcf⟩
            refine ⟨j + 1, u, q, by simpa using hu, hue, hq, ?_⟩
            rw [List.take_succ_cons, batchContext_cons_ok t p _ herr hp, ← merge_assoc]
            exact hcf
          · rintro ⟨i, u, q, hu, hue, hq, hcf⟩
            cases i with
            | zero =>
              simp only [List.getElem?_cons_zero, Option.some.injEq] at hu
              subst hu
              rw [hp] at hq
              cases hq
              rw [List.take_zero, batchContext_nil, merge_new] at hcf
              exact absurd ((conflicts_iff _ _).2 hcf) hc
            | succ j =>
              refine ⟨j, u, q, by simpa using hu, hue, hq, ?_⟩
              rw [List.take_succ_cons, batchContext_cons_ok t p _ herr hp, ← merge_assoc] at hcf
              exact hcf
    · obtain ⟨b, hb, hiff⟩ := ih C hrest
      refine ⟨b, ?_, ?_⟩
      · simp [detectConflict, herr, hb]
      · rw [hiff]
        constructor
        · rintro ⟨j, u, q, hu, hue, hq, hcf⟩
          refine ⟨j + 1, u, q, by simpa using hu, hue, hq, ?_⟩
          rw [List.take_succ_cons, batchContext_cons_err t _ herr]
          exact hcf
        · rintro ⟨i, u, q, hu, hue, hq, hcf⟩
          cases i with
          | zero =>
            simp only [List.getElem?_cons_zero, Option.some.injEq] at hu
            subst hu
            exact absurd hue herr
          | succ j =>
            refine ⟨j, u, q, by simpa using hu, hue, hq, ?_⟩
            rw [List.take_succ_cons, batchContext_cons_err t _ herr] at hcf
            exact hcf

/-- C6. For every executed batch (every non-errored context carries its
pending state), the conflict-detection pass returns, and it declares the batch
conflicted if and only if some non-errored transaction's pending state
conflicts (spec §4.4 condition) with the batch context accumulated from all
earlier non-errored pending states of the batch. -/
theorem detectConflict_iff (list : List txnCtx)
    (hexec : ∀ t ∈ list, t.err = none → t.ps ≠ none) :
    ∃ conflict, detectConflict NewStateContext list = some conflict ∧
      (conflict = true ↔ ∃ i t p, list[i]? = some t ∧ t.err = none ∧ t.ps = some p
          ∧ psConflicts p.GetCtx (batchContext (list.take i))) := by
  obtain ⟨b, hb, hiff⟩ := detectConflict_general list NewStateContext hexec
  refine ⟨b, hb, ?_⟩
  rw [hiff]
  simp only [new_merge]

/-! ## Serial executor -/

theorem stepCtx_err (isRedo : Bool) (s : StateDB) (t : txnCtx) (h : t.err ≠ none) :
    stepCtx isRedo s t = t := if_pos h

theorem stepState_err (s : StateDB) (t : txnCtx) (h : t.err ≠ none) :
    stepState s t = s := if_pos h

theorem stepCtx_fail (isRedo : Bool) (s : StateDB) (t : txnCtx) (e : Error)
    (h : t.err = none) (hw : (t.writing s).out = Except.error e) :
    stepCtx isRedo s t
      = { t with ctx := t.ctx.emit (t.writing s).events, err := some e,
                 receipt := some (handleTxnError e) } := by
  unfold stepCtx
  rw [if_neg (not_not.2 h), hw]

theorem stepState_fail (s : StateDB) (t : txnCtx) (e : Error)
    (h : t.err = none) (hw : (t.writing s).out = Except.error e) :
    stepState s t = (t.writing s).stateDB := by
  unfold stepState
  rw [if_neg (not_not.2 h), hw]

theorem stepCtx_ok (isRedo : Bool) (s : StateDB) (t : txnCtx) (ps : PendingState)
    (h : t.err = none) (hw : (t.writing s).out = Except.ok ps) :
    stepCtx isRedo s t
      = { t with ctx := t.ctx.emit (t.writing s).events,
                 receipt := some (handleTxnEvent (t.ctx.emit (t.writing s).events) isRedo),
                 ps := some ps } := by
  unfold stepCtx
  rw [if_neg (not_not.2 h), hw]

theorem stepState_ok (s : StateDB) (t : txnCtx) (ps : PendingState)
    (h : t.err = none) (hw : (t.writing s).out = Except.ok ps) :
    stepState s t = ps.GetStateDB := by
  unfold stepState
  rw [if_neg (not_not.2 h), hw]

theorem inOrderLoop_cons (isRedo : Bool) (s : StateDB) (t : txnCtx) (rest : List txnCtx) :
    inOrderLoop isRedo s (t :: rest)
      = (stepCtx isRedo s t :: (inOrderLoop isRedo (stepState s t) rest).1,
         (inOrderLoop isRedo (stepState s t) rest).2) := by
  conv_lhs => unfold inOrderLoop
  by_cases h : t.err ≠ none
  · rw [if_pos h, stepCtx_err _ _ _ h, stepState_err _ _ h]
  · rw [if_neg h]
    have h2 : t.err = none := not_not.1 h
    simp only
    cases hw : (t.writing s).out with
    | error e => rw [stepCtx_fail _ _ _ e h2 hw, stepState_fail _ _ e h2 hw]
    | ok ps => rw [stepCtx_ok _ _ _ ps h2 hw, stepState_ok _ _ ps h2 hw]

theorem inOrderLoop_append (isRedo : Bool) :
    ∀ (l1 : List txnCtx) (s : StateDB) (l2 : List txnCtx),
      inOrderLoop isRedo s (l1 ++ l2)
        = ((inOrderLoop isRedo s l1).1 ++ (inOrderLoop isRedo (inOrderLoop isRedo s l1).2 l2).1,
           (inOrderLoop isRedo (inOrderLoop isRedo s l1).2 l2).2) := by
  intro l1
  induction l1 with
  | nil => intro s l2; simp [inOrderLoop]
  | cons t rest ih =>
    intro s l2
    rw [List.cons_append, inOrderLoop_cons, inOrderLoop_cons, ih]
    simp

theorem inOrderLoop_length (isRedo : Bool) :
    ∀ (l : List txnCtx) (s : StateDB), (inOrderLoop isRedo s l).1.length = l.length := by
  intro l
  induction l with
  | nil => intro s; simp [inOrderLoop]
  | cons t rest ih => intro s; rw [inOrderLoop_cons]; simp [ih]

theorem handleBefore_succ (origin : StateDB) (list : List txnCtx) (i : Nat) :
    handleBefore origin list (i + 1)
      = match list[i]? with
        | none => handleBefore origin list i
        | some t => stepState (handleBefore origin list i) t := by
  conv_lhs => unfold handleBefore

theorem inOrderLoop_take (isRedo : Bool) (origin : StateDB) (list : List txnCtx) :
    ∀ i, (inOrderLoop isRedo origin (list.take i)).2 = handleBefore origin list i := by
  intro i
  induction i with
  | zero => simp [inOrderLoop, handleBefore]
  | succ i ih =>
    rw [List.take_succ, inOrderLoop_append, handleBefore_succ, ih]
    cases list[i]? with
    | none => simp [inOrderLoop]
    | some t =>
      simp only [Option.toList]
      rw [inOrderLoop_cons]
      simp [inOrderLoop]

theorem inOrderLoop_final (isRedo : Bool) (origin : StateDB) (list : List txnCtx) :
    (inOrderLoop isRedo origin list).2 = handleBefore origin list list.length := by
  have h := inOrderLoop_take isRedo origin list list.length
  rwa [List.take_length] at h

theorem inOrderLoop_getElem (isRedo : Bool) (origin : StateDB) (list : List txnCtx)
    (i : Nat) (t : txnCtx) (ht : list[i]? = some t) :
    (inOrderLoop isRedo origin list).1[i]?
      = some (stepCtx isRedo (handleBefore origin list i) t) := by
  have hlt : i < list.length := by
    rcases Nat.lt_or_ge i list.length with h | h
    · exact h
    · rw [List.getElem?_eq_none h] at ht; cases ht
  have hdrop : list.drop i = t :: list.drop (i + 1) := by
    rw [List.getElem?_eq_getElem hlt] at ht
    cases ht
    exact List.drop_eq_getElem_cons hlt
  have hsplit : list = list.take i ++ (t :: list.drop (i + 1)) := by
    rw [← hdrop, List.take_append_drop]
  have hlen : (inOrderLoop isRedo origin (list.take i)).1.length = i := by
    rw [inOrderLoop_length, List.length_take]
    omega
  conv_lhs => rw [hsplit]
  rw [inOrderLoop_append, inOrderLoop_take, inOrderLoop_cons]
  simp only
  rw [List.getElem?_append_right (by omega), hlen]
  simp

theorem seenState_succ (origin : StateDB) (list : List txnCtx) (i : Nat) :
    seenState origin list (i + 1)
      = match list[i]? with
        | none => seenState origin list i
        | some t =>
          if t.err ≠ none then seenState origin list i
          else
            match (t.writing (seenState origin list i)).out with
            | Except.ok ps => ps.GetStateDB
            | Except.error _ => seenState origin list i := by
  conv_lhs => unfold seenState

theorem seenState_skip (origin : StateDB) (list : List txnCtx) (i : Nat)
    (h : ∀ t, list[i]? = some t →
      (t.err ≠ none ∨ ∃ e, (t.writing (seenState origin list i)).out = Except.error e)) :
    seenState origin list (i + 1) = seenState origin list i := by
  rw [seenState_succ]
  cases hget : list[i]? with
  | none => rfl
  | some t =>
    simp only
    rcases h t hget with herr | ⟨e, hw⟩
    · rw [if_pos herr]
    · by_cases herr : t.err ≠ none
      · rw [if_pos herr]
      · rw [if_neg herr, hw]

theorem seenState_ok (origin : StateDB) (list : List txnCtx) (i : Nat) (t : txnCtx)
    (ps : PendingState) (hget : list[i]? = some t) (herr : t.err = none)
    (hw : (t.writing (seenState origin list i)).out = Except.ok ps) :
    seenState origin list (i + 1) = ps.GetStateDB := by
  rw [seenState_succ, hget]
  simp only
  rw [if_neg (not_not.2 herr), hw]

theorem handleBefore_eq_seenState (origin : StateDB) (list : List txnCtx)
    (hrev : FailedRunsRevert origin list) :
    ∀ i, handleBefore origin list i = seenState origin list i := by
  intro i
  induction i with
  | zero => rfl
  | succ i ih =>
    rw [handleBefore_succ]
    cases hget : list[i]? with
    | none =>
      simp only
      rw [ih, seenState_skip]
      intro t ht
      rw [hget] at ht; cases ht
    | some t =>
      simp only
      by_cases herr : t.err ≠ none
      · rw [stepState_err _ _ herr, ih, seenState_skip]
        intro u hu
        rw [hget] at hu; cases hu
        exact Or.inl herr
      · have herr2 : t.err = none := not_not.1 herr
        cases hw : (t.writing (handleBefore origin list i)).out with
        | error e =>
          rw [stepState_fail _ _ e herr2 hw, hrev i t e hget herr2 hw, ih, seenState_skip]
          intro u hu
          rw [hget] at hu; cases hu
          exact Or.inr ⟨e, by rw [← ih]; exact hw⟩
        | ok ps =>
          rw [stepState_ok _ _ ps herr2 hw]
          rw [ih] at hw
          rw [seenState_ok origin list i t ps hget herr2 hw]

theorem not_succeedsAt_of_skip (origin : StateDB) (list : List txnCtx) (i : Nat)
    (h : ∀ t, list[i]? = some t →
      (t.err ≠ none ∨ ∃ e, (t.writing (seenState origin list i)).out = Except.error e)) :
    ∀ s2, ¬ succeedsAt origin list i s2 := by
  rintro s2 ⟨t, ps, ht, herr, hw, -⟩
  rcases h t ht with h1 | ⟨e, h1⟩
  · exact h1 herr
  · rw [hw] at h1; cases h1

theorem nearestSuccess_extend (origin : StateDB) (list : List txnCtx) (i : Nat) (s : StateDB)
    (hno : ∀ s2, ¬ succeedsAt origin list i s2) (h : nearestSuccess origin list i s) :
    nearestSuccess origin list (i + 1) s := by
  rcases h with ⟨j, hj, hs, hbetween⟩ | ⟨hnone, hs⟩
  · refine Or.inl ⟨j, by omega, hs, ?_⟩
    intro k hjk hk s2
    rcases Nat.lt_or_ge k i with hlt | hge
    · exact hbetween k hjk hlt s2
    · have : k = i := by omega
      subst this
      exact hno s2
  · refine Or.inr ⟨?_, hs⟩
    intro k hk s2
    rcases Nat.lt_or_ge k i with hlt | hge
    · exact hnone k hlt s2
    · have : k = i := by omega
      subst this
      exact hno s2

theorem nearestSuccess_seenState (origin : StateDB) (list : List txnCtx) :
    ∀ i, nearestSuccess origin list i (seenState origin list i) := by
  intro i
  induction i with
  | zero =>
    refine Or.inr ⟨?_, rfl⟩
    intro k hk
    omega
  | succ i ih =>
    have hskip : (∀ t, list[i]? = some t →
        (t.err ≠ none ∨ ∃ e, (t.writing (seenState origin list i)).out = Except.error e)) →
        nearestSuccess origin list (i + 1) (seenState origin list (i + 1)) := by
      intro h
      rw [seenState_skip origin list i h]
      exact nearestSuccess_extend _ _ _ _ (not_succeedsAt_of_skip origin list i h) ih
    cases hget : list[i]? with
    | none =>
      apply hskip
      intro t ht
      rw [hget] at ht; cases ht
    | some t =>
      by_cases herr : t.err ≠ none
      · apply hskip
        intro u hu
        rw [hget] at hu; cases hu
        exact Or.inl herr
      · cases hw : (t.writing (seenState origin list i)).out with
        | error e =>
          apply hskip
          intro u hu
          rw [hget] at hu; cases hu
          exact Or.inr ⟨e, hw⟩
        | ok ps =>
          rw [seenState_ok origin list i t ps hget (not_not.1 herr) hw]
          refine Or.inl ⟨i, Nat.lt_succ_self i, ⟨t, ps, hget, not_not.1 herr, hw, rfl⟩, ?_⟩
          intro k hik hk
          omega

theorem failedRunsRevert_of_forall (origin : StateDB) (list : List txnCtx)
    (h : ∀ t ∈ list, RevertsOnFailure t.writing) : FailedRunsRevert origin list := by
  intro i t e hget _ hw
  exact h t (List.getElem?_mem hget) _ e hw

theorem writeKey_reverts (k : Key) (v : Val) : RevertsOnFailure (writeKey k v) := by
  intro s e h
  cases h

theorem revertAlways_reverts (e : Error) : RevertsOnFailure (revertAlways e) := by
  intro s e2 _
  rfl

theorem guardedWrite_reverts (g k : Key) (v : Val) (e : Error) :
    RevertsOnFailure (guardedWrite g k v e) := by
  intro s e2 h
  unfold guardedWrite at h ⊢
  by_cases hg : s g = 0
  · rw [if_pos hg]
  · rw [if_neg hg] at h
    cases h

theorem revertBatch_reverts : FailedRunsRevert fundedState revertBatch := by
  apply failedRunsRevert_of_forall
  intro t ht
  simp only [revertBatch, List.mem_cons, List.mem_singleton, List.not_mem_nil, or_false] at ht
  rcases ht with rfl | rfl | rfl
  · exact writeKey_reverts 0 1
  · exact revertAlways_reverts 7
  · exact guardedWrite_reverts 5 2 1 9

/-- C7, as stated, fails. On `leakyBatch` from the all-zero state the first
transaction writes key `0` and then returns an error, so no transaction before
the second one executed successfully and the claim has the second one run
against the starting state, where it reverts with error `9`. The loop instead
hands it the handle the first one wrote to: it succeeds, and the installed
state holds the failed transaction's write. -/
theorem serial_successor_sees_failed_write :
    (executeTxnCtxListInOrder emptyState leakyBatch false).1.map (fun c => (c.err, c.receipt))
        = [(some 7, some (Receipt.failure 7)), (none, some (Receipt.success [1]))]
    ∧ (executeTxnCtxListInOrder emptyState leakyBatch false).2 0 = 1
    ∧ (∀ s, nearestSuccess emptyState leakyBatch 1 s → s = emptyState)
    ∧ (∃ t, leakyBatch[1]? = some t ∧ t.err = none
        ∧ (t.writing emptyState).out = Except.error 9) := by
  refine ⟨rfl, rfl, ?_, ⟨_, rfl, rfl, rfl⟩⟩
  intro s h
  rcases h with ⟨j, hj, ⟨t, ps, ht, -, hw, -⟩, -⟩ | ⟨-, hs⟩
  · have hj0 : j = 0 := by omega
    subst hj0
    simp only [leakyBatch, List.getElem?_cons_zero, Option.some.injEq] at ht
    subst ht
    cases hw
  · exact hs

/-- C7 (amended). For every batch and starting state such that every run of
the pass that returns an error leaves the state handle as it found it,
`executeTxnCtxListInOrder` returns one context per input context, in list
order, such that: a transaction that already carries an error keeps its error
and receipt; every other transaction gets the outcome of its `writing` on the
post-state of the nearest earlier transaction that executed successfully in
this pass (the starting state if there is none): an error receipt if it
fails, a success receipt built from its context if it succeeds; and the state
installed at the end is the post-state of the last transaction that executed
successfully (the starting state if there is none). -/
theorem executeTxnCtxListInOrder_spec (origin : StateDB) (list : List txnCtx) (isRedo : Bool)
    (hrev : FailedRunsRevert origin list) :
    (executeTxnCtxListInOrder origin list isRedo).1.length = list.length
    ∧ (∀ i t, list[i]? = some t →
        ∃ o, (executeTxnCtxListInOrder origin list isRedo).1[i]? = some o
          ∧ (t.err ≠ none → o.err = t.err ∧ o.receipt = t.receipt)
          ∧ (t.err = none → ∃ s, nearestSuccess origin list i s
              ∧ (∀ e, (t.writing s).out = Except.error e →
                    o.err = some e ∧ o.receipt = some (handleTxnError e))
              ∧ (∀ ps, (t.writing s).out = Except.ok ps →
                    o.err = none
                    ∧ o.receipt
                        = some (handleTxnEvent (t.ctx.emit (t.writing s).events) isRedo))))
    ∧ nearestSuccess origin list list.length (executeTxnCtxListInOrder origin list isRedo).2 := by
  have hseen := handleBefore_eq_seenState origin list hrev
  refine ⟨?_, ?_, ?_⟩
  · simp [executeTxnCtxListInOrder, gcCopiedStateDB, inOrderLoop_length]
  · intro i t ht
    refine ⟨{ stepCtx isRedo (seenState origin list i) t with ps := none }, ?_, ?_, ?_⟩
    · simp [executeTxnCtxListInOrder, gcCopiedStateDB, List.getElem?_map,
        inOrderLoop_getElem isRedo origin list i t ht, hseen]
    · intro herr
      rw [stepCtx_err _ _ _ herr]
      exact ⟨rfl, rfl⟩
    · intro herr
      refine ⟨seenState origin list i, nearestSuccess_seenState origin list i, ?_, ?_⟩
      · intro e he
        rw [stepCtx_fail _ _ _ e herr he]
        exact ⟨rfl, rfl⟩
      · intro ps hok
        rw [stepCtx_ok _ _ _ ps herr hok]
        exact ⟨herr, rfl⟩
  · simp only [executeTxnCtxListInOrder]
    rw [inOrderLoop_final, hseen]
    exact nearestSuccess_seenState origin list list.length

/-- Witness for C7 (amended): spec §8 scenario 5 on `fundedState`. -/
theorem executeTxnCtxListInOrder_spec_witness :
    FailedRunsRevert fundedState revertBatch
    ∧ (executeTxnCtxListInOrder fundedState revertBatch false).1.length = revertBatch.length
    ∧ (∀ i t, revertBatch[i]? = some t →
        ∃ o, (executeTxnCtxListInOrder fundedState revertBatch false).1[i]? = some o
          ∧ (t.err ≠ none → o.err = t.err ∧ o.receipt = t.receipt)
          ∧ (t.err = none → ∃ s, nearestSuccess fundedState revertBatch i s
              ∧ (∀ e, (t.writing s).out = Except.error e →
                    o.err = some e ∧ o.receipt = some (handleTxnError e))
              ∧ (∀ ps, (t.writing s).out = Except.ok ps →
                    o.err = none
                    ∧ o.receipt
                        = some (handleTxnEvent (t.ctx.emit (t.writing s).events) false))))
    ∧ nearestSuccess fundedState revertBatch revertBatch.length
        (executeTxnCtxListInOrder fundedState revertBatch false).2 :=
  ⟨revertBatch_reverts,
    executeTxnCtxListInOrder_spec fundedState revertBatch false revertBatch_reverts⟩

/-! ## Speculative executor against the serial executor -/

theorem zipWith_speculate (origin : StateDB) :
    ∀ list : List txnCtx,
      List.zipWith speculate list (CopyStateDb origin list)
        = list.map (fun t => speculate t origin) := by
  intro list
  induction list with
  | nil => rfl
  | cons t rest ih =>
    simp only [CopyStateDb, List.map_cons, List.zipWith_cons_cons] at ih ⊢
    rw [ih]

theorem speculate_fail (t : txnCtx) (s : StateDB) (e : Error)
    (hw : (t.writing s).out = Except.error e) :
    speculate t s
      = { t with ctx := t.ctx.emit (t.writing s).events, err := some e,
                 receipt := some (handleTxnError e) } := by
  unfold speculate
  simp only
  rw [hw]

theorem speculate_ok (t : txnCtx) (s : StateDB) (ps : PendingState)
    (hw : (t.writing s).out = Except.ok ps) :
    speculate t s
      = { t with ctx := t.ctx.emit (t.writing s).events,
                 receipt := some (handleTxnEvent (t.ctx.emit (t.writing s).events) false),
                 ps := some ps } := by
  unfold speculate
  simp only
  rw [hw]

theorem speculate_has_ps (origin : StateDB) (t : txnCtx) :
    (speculate t origin).err = none → (speculate t origin).ps ≠ none := by
  cases hw : (t.writing origin).out with
  | error e => rw [speculate_fail t origin e hw]; simp
  | ok p => rw [speculate_ok t origin p hw]; simp

theorem gcCopiedStateDB_map_err (l : List txnCtx) :
    (gcCopiedStateDB l).map (fun c => c.err) = l.map (fun c => c.err) := by
  simp [gcCopiedStateDB, List.map_map, Function.comp_def]

theorem gcCopiedStateDB_map_receipt (l : List txnCtx) :
    (gcCopiedStateDB l).map (fun c => c.receipt) = l.map (fun c => c.receipt) := by
  simp [gcCopiedStateDB, List.map_map, Function.comp_def]

theorem handleBefore_cons (s : StateDB) (t : txnCtx) (rest : List txnCtx) :
    ∀ i, handleBefore s (t :: rest) (i + 1) = handleBefore (stepState s t) rest i := by
  intro i
  induction i with
  | zero => rw [handleBefore_succ]; simp [handleBefore]
  | succ i ih =>
    rw [handleBefore_succ, handleBefore_succ (stepState s t) rest i, ih,
      List.getElem?_cons_succ]

theorem failuresCarryOver_tail (snap s : StateDB) (t : txnCtx) (rest : List txnCtx)
    (h : FailuresCarryOver snap s (t :: rest)) :
    FailuresCarryOver snap (stepState s t) rest := by
  intro i u e hu hw
  have := h (i + 1) u e (by simpa using hu) hw
  rwa [handleBefore_cons] at this

theorem footprintsHold_tail (snap s : StateDB) (t : txnCtx) (rest : List txnCtx)
    (h : FootprintsHold snap s (t :: rest)) :
    FootprintsHold snap (stepState s t) rest := by
  intro i u p hu hw
  have := h (i + 1) u p (by simpa using hu) hw
  rwa [handleBefore_cons] at this

theorem redo_step (snap s : StateDB) (t : txnCtx) (herr : t.err = none)
    (hfail : ∀ e, (t.writing snap).out = Except.error e →
      (t.writing s).out = Except.error e ∧ (t.writing s).stateDB = s) :
    stepState s (speculate t snap) = stepState s t
    ∧ (stepCtx true s (speculate t snap)).err = (stepCtx false s t).err := by
  cases hw0 : (t.writing snap).out with
  | error e =>
    obtain ⟨hws, hst⟩ := hfail e hw0
    rw [speculate_fail t snap e hw0, stepState_fail s t e herr hws,
      stepCtx_fail false s t e herr hws]
    rw [stepState_err _ _ (by simp), stepCtx_err _ _ _ (by simp), hst]
    exact ⟨rfl, rfl⟩
  | ok p0 =>
    rw [speculate_ok t snap p0 hw0]
    have hE : ({ t with ctx := t.ctx.emit (t.writing snap).events,
                        receipt := some (handleTxnEvent (t.ctx.emit (t.writing snap).events) false),
                        ps := some p0 } : txnCtx).err = none := herr
    cases hws : (t.writing s).out with
    | error e =>
      have hW : (({ t with ctx := t.ctx.emit (t.writing snap).events,
                           receipt := some (handleTxnEvent (t.ctx.emit (t.writing snap).events) false),
                           ps := some p0 } : txnCtx).writing s).out = Except.error e := hws
      rw [stepState_fail s t e herr hws, stepCtx_fail false s t e herr hws,
        stepState_fail s _ e hE hW, stepCtx_fail true s _ e hE hW]
      exact ⟨rfl, rfl⟩
    | ok p =>
      have hW : (({ t with ctx := t.ctx.emit (t.writing snap).events,
                           receipt := some (handleTxnEvent (t.ctx.emit (t.writing snap).events) false),
                           ps := some p0 } : txnCtx).writing s).out = Except.ok p := hws
      rw [stepState_ok s t p herr hws, stepCtx_ok false s t p herr hws,
        stepState_ok s _ p hE hW, stepCtx_ok true s _ p hE hW]
      exact ⟨rfl, rfl⟩

theorem redo_eq_serial (snap : StateDB) :
    ∀ (l : List txnCtx) (s : StateDB),
      (∀ t ∈ l, t.err = none) → FailuresCarryOver snap s l →
      (inOrderLoop true s (l.map (fun t => speculate t snap))).2 = (inOrderLoop false s l).2
      ∧ (inOrderLoop true s (l.map (fun t => speculate t snap))).1.map (fun c => c.err)
          = (inOrderLoop false s l).1.map (fun c => c.err) := by
  intro l
  induction l with
  | nil => intro s _ _; exact ⟨rfl, rfl⟩
  | cons t rest ih =>
    intro s hprep hfail
    obtain ⟨hst, hctx⟩ := redo_step snap s t (hprep t (List.mem_cons_self _ _))
      (fun e he => hfail 0 t e (by simp) he)
    obtain ⟨ih1, ih2⟩ := ih (stepState s t) (fun u hu => hprep u (List.mem_cons_of_mem _ hu))
      (failuresCarryOver_tail snap s t rest hfail)
    rw [List.map_cons, inOrderLoop_cons, inOrderLoop_cons, hst]
    simp only [List.map_cons]
    rw [ih1, ih2, hctx]
    exact ⟨rfl, rfl⟩

theorem applyDeltas_of_not_mem :
    ∀ (d : List (Key × Val)) (s : StateDB) (k : Key),
      (∀ kv ∈ d, kv.1 ≠ k) → applyDeltas d s k = s k := by
  intro d
  induction d with
  | nil => intro s k _; rfl
  | cons kv rest ih =>
    intro s k h
    obtain ⟨k2, v2⟩ := kv
    unfold applyDeltas
    rw [ih _ k (fun x hx => h x (List.mem_cons_of_mem _ hx))]
    have : k2 ≠ k := h (k2, v2) (List.mem_cons_self _ _)
    simp [Ne.symm this]

theorem merge_eq_serial (snap : StateDB) :
    ∀ (l : List txnCtx) (C : StateContext) (s : StateDB),
      (∀ t ∈ l, t.err = none) → FailuresCarryOver snap s l → FootprintsHold snap s l →
      (∀ k, k ∉ C.Write → s k = snap k) →
      detectConflict C (l.map (fun t => speculate t snap)) = some false →
      mergeStateDB s (l.map (fun t => speculate t snap)) = some (inOrderLoop false s l).2
        ∧ (l.map (fun t => speculate t snap)).map (fun c => (c.err, c.receipt))
            = (inOrderLoop false s l).1.map (fun c => (c.err, c.receipt)) := by
  intro l
  induction l with
  | nil => intro C s _ _ _ _ _; exact ⟨rfl, rfl⟩
  | cons t rest ih =>
    intro C s hprep hfail hfoot hinv hdet
    have herr : t.err = none := hprep t (List.mem_cons_self _ _)
    have hprep2 : ∀ u ∈ rest, u.err = none := fun u hu => hprep u (List.mem_cons_of_mem _ hu)
    have hfail2 := failuresCarryOver_tail snap s t rest hfail
    have hfoot2 := footprintsHold_tail snap s t rest hfoot
    rw [List.map_cons] at hdet ⊢
    rw [inOrderLoop_cons]
    simp only [List.map_cons]
    cases hw0 : (t.writing snap).out with
    | error e =>
      obtain ⟨hws, hst⟩ := hfail 0 t e (by simp) hw0
      simp only [handleBefore] at hws hst
      rw [speculate_fail t snap e hw0] at hdet ⊢
      have hstep : stepState s t = s := by
        rw [stepState_fail s t e herr hws, hst]
      rw [hstep] at hfail2 hfoot2
      rw [hstep, stepCtx_fail false s t e herr hws]
      unfold detectConflict at hdet
      rw [if_pos (by simp)] at hdet
      unfold mergeStateDB
      rw [if_pos (by simp)]
      obtain ⟨ih1, ih2⟩ := ih C s hprep2 hfail2 hfoot2 hinv hdet
      rw [ih1, ih2]
      exact ⟨rfl, rfl⟩
    | ok p0 =>
      obtain ⟨hkeys, hframe⟩ := hfoot 0 t p0 (by simp) hw0
      simp only [handleBefore] at hframe
      rw [speculate_ok t snap p0 hw0] at hdet ⊢
      unfold detectConflict at hdet
      rw [if_neg (by simpa using herr)] at hdet
      simp only [PendingState.GetCtx, StateContext.IsConflict] at hdet
      by_cases hc : C.conflicts p0.sctx = true
      · rw [if_pos hc] at hdet
        cases hdet
      · rw [if_neg hc] at hdet
        simp only at hdet
        have hnc : ¬ psConflicts p0.sctx C := fun h => hc ((conflicts_iff _ _).2 h)
        have hagree : ∀ k ∈ p0.sctx.Read, s k = snap k := by
          intro k hk
          apply hinv
          intro hkw
          exact hnc (Or.inl ⟨k, hk, hkw⟩)
        obtain ⟨p2, hws, hpost2, hev⟩ := hframe hagree
        have hpost : p2.GetStateDB = p0.MergeInto s := by
          rw [hpost2]; rfl
        have hstep : stepState s t = p0.MergeInto s := by
          rw [stepState_ok s t p2 herr hws, hpost]
        rw [hstep] at hfail2 hfoot2
        rw [hstep, stepCtx_ok false s t p2 herr hws, hev]
        unfold mergeStateDB
        rw [if_neg (by simpa using herr)]
        simp only
        have hinv2 : ∀ k, k ∉ (C.merge p0.sctx).Write → (p0.MergeInto s) k = snap k := by
          intro k hk
          simp only [StateContext.merge, List.mem_append, not_or] at hk
          rw [PendingState.MergeInto, applyDeltas_of_not_mem _ _ _ ?_]
          · exact hinv k hk.1
          · intro kv hkv hEq
            exact hk.2 (hEq ▸ hkeys kv hkv)
        obtain ⟨ih1, ih2⟩ := ih (C.merge p0.sctx) (p0.MergeInto s) hprep2
          hfail2 hfoot2 hinv2 hdet
        rw [ih1, ih2]
        exact ⟨rfl, rfl⟩

theorem failuresCarryOver_of_forall (snap start : StateDB) (list : List txnCtx)
    (h : ∀ t ∈ list, FailsAlikeFrom snap t.writing) : FailuresCarryOver snap start list := by
  intro i t e hget hw
  exact h t (List.getElem?_mem hget) e hw _

theorem footprintsHold_of_forall (snap start : StateDB) (list : List txnCtx)
    (h : ∀ t ∈ list, AccurateAt snap t.writing) : FootprintsHold snap start list := by
  intro i t p hget hw
  obtain ⟨hk, hf⟩ := h t (List.getElem?_mem hget) p hw
  exact ⟨hk, fun hag => hf _ hag⟩

theorem writeKey_accurate (k : Key) (v : Val) (snap : StateDB) :
    AccurateAt snap (writeKey k v) := by
  intro p h
  cases h
  refine ⟨by simp, fun s2 _ => ⟨_, rfl, rfl, rfl⟩⟩

theorem writeKey_failsAlike (k : Key) (v : Val) (snap : StateDB) :
    FailsAlikeFrom snap (writeKey k v) := by
  intro e h
  cases h

theorem revertAlways_accurate (e : Error) (snap : StateDB) :
    AccurateAt snap (revertAlways e) := by
  intro p h
  cases h

theorem revertAlways_failsAlike (e : Error) (snap : StateDB) :
    FailsAlikeFrom snap (revertAlways e) := by
  intro e2 h s
  exact ⟨h, rfl⟩

theorem guardedWrite_accurate (g k : Key) (v : Val) (e : Error) (snap : StateDB) :
    AccurateAt snap (guardedWrite g k v e) := by
  intro p h
  unfold guardedWrite at h
  by_cases hg : snap g = 0
  · rw [if_pos hg] at h
    cases h
  · rw [if_neg hg] at h
    cases h
    refine ⟨by simp, ?_⟩
    intro s2 hs2
    have hg2 : ¬ s2 g = 0 := by
      rw [hs2 g (by simp)]
      exact hg
    refine ⟨{ stateDB := fun x => if x = k then v else s2 x, deltas := [(k, v)],
              sctx := { Read := [g], Write := [k] } }, ?_, rfl, ?_⟩
    · unfold guardedWrite
      rw [if_neg hg2]
    · unfold guardedWrite
      rw [if_neg hg2, if_neg hg]

theorem guardedWrite_failsAlike (g k : Key) (v : Val) (e : Error) (snap : StateDB)
    (hg : snap g ≠ 0) : FailsAlikeFrom snap (guardedWrite g k v e) := by
  intro e2 h
  unfold guardedWrite at h
  rw [if_neg hg] at h
  cases h

theorem copyWrite_accurate (snap : StateDB) : AccurateAt snap copyWrite := by
  intro p h
  cases h
  refine ⟨by simp, ?_⟩
  intro s2 hs2
  have h0 : s2 0 = snap 0 := hs2 0 (by simp)
  refine ⟨_, rfl, ?_, rfl⟩
  funext x
  simp [copyWrite, PendingState.GetStateDB, applyDeltas, h0]

theorem copyWrite_failsAlike (snap : StateDB) : FailsAlikeFrom snap copyWrite := by
  intro e h
  cases h

/-- C1, as stated, fails. On `dependentBatch` (two prepared transactions with
accurate read and write sets, that leave the handle alone when they fail, and
with no static conflict, which `SplitTxnCtxList` puts in one batch) from the
all-zero state, parallel mode leaves key `1` at `0` and gives the second
transaction a failure receipt, while serial mode leaves key `1` at `1` and
gives it a success receipt: the second transaction fails on its snapshot but
not in the serial pass. -/
theorem parallel_differs_from_serial :
    (∀ t ∈ dependentBatch, t.err = none ∧ AccurateAt emptyState t.writing
        ∧ RevertsOnFailure t.writing)
    ∧ ¬ FailuresCarryOver emptyState emptyState dependentBatch
    ∧ SplitTxnCtxList 16 dependentBatch = some [dependentBatch]
    ∧ (executeTxnCtxList { IsParallel := true, MaxConcurrency := 16 } emptyState
          dependentBatch).map (fun r => (r.1.map (fun c => c.receipt), r.2 1))
        = some ([some (Receipt.success [0]), some (Receipt.failure 7)], 0)
    ∧ (executeTxnCtxList { IsParallel := false, MaxConcurrency := 16 } emptyState
          dependentBatch).map (fun r => (r.1.map (fun c => c.receipt), r.2 1))
        = some ([some (Receipt.success [0]), some (Receipt.success [1])], 1) := by
  refine ⟨?_, ?_, rfl, rfl, rfl⟩
  · intro t ht
    simp only [dependentBatch, List.mem_cons, List.mem_singleton, List.not_mem_nil,
      or_false] at ht
    rcases ht with rfl | rfl
    · exact ⟨rfl, writeKey_accurate 0 1 emptyState, writeKey_reverts 0 1⟩
    · exact ⟨rfl, guardedWrite_accurate 0 1 1 7 emptyState, guardedWrite_reverts 0 1 1 7⟩
  · intro h
    have h1 := (h 1 (liveCtx 2 11 (some 21) (guardedWrite 0 1 1 7)) 7 rfl rfl).1
    cases h1

/-- The read sets must be accurate for the two modes to agree: on
`understatedBatch`, where no transaction fails and the detector finds no
conflict, parallel mode leaves `5` under key `1`, serial mode `6`. -/
theorem understated_read_set_diverges :
    FailuresCarryOver emptyState emptyState understatedBatch
    ∧ detectConflict NewStateContext
        (List.zipWith speculate understatedBatch (CopyStateDb emptyState understatedBatch))
          = some false
    ∧ (executeTxnCtxList { IsParallel := true, MaxConcurrency := 16 } emptyState
          understatedBatch).map (fun r => r.2 1) = some 5
    ∧ (executeTxnCtxList { IsParallel := false, MaxConcurrency := 16 } emptyState
          understatedBatch).map (fun r => r.2 1) = some 6 := by
  refine ⟨?_, rfl, rfl, rfl⟩
  intro i t e hget hw
  have ht := List.getElem?_mem hget
  simp only [understatedBatch, List.mem_cons, List.mem_singleton, List.not_mem_nil,
    or_false] at ht
  rcases ht with rfl | rfl <;> cases hw

/-- A failed run must leave the handle as it found it for the two modes to
agree: on `leakyBatch` parallel mode drops the first transaction's write with
its copy and the second transaction reverts, serial mode lets the second one
see the write and succeed. -/
theorem failed_write_diverges :
    (executeTxnCtxList { IsParallel := true, MaxConcurrency := 16 } emptyState
          leakyBatch).map (fun r => (r.1.map (fun c => c.err), r.2 0, r.2 1))
        = some ([some 7, some 9], 0, 0)
    ∧ (executeTxnCtxList { IsParallel := false, MaxConcurrency := 16 } emptyState
          leakyBatch).map (fun r => (r.1.map (fun c => c.err), r.2 0, r.2 1))
        = some ([some 7, none], 1, 1) :=
  ⟨rfl, rfl⟩

theorem conflictBatch_prepared : ∀ t ∈ conflictBatch, t.err = none := by
  intro t ht
  simp only [conflictBatch, List.mem_cons, List.mem_singleton, List.not_mem_nil, or_false] at ht
  rcases ht with rfl | rfl <;> rfl

theorem conflictBatch_failures : FailuresCarryOver emptyState emptyState conflictBatch := by
  apply failuresCarryOver_of_forall
  intro t ht
  simp only [conflictBatch, List.mem_cons, List.mem_singleton, List.not_mem_nil, or_false] at ht
  rcases ht with rfl | rfl
  · exact writeKey_failsAlike 0 1 emptyState
  · exact copyWrite_failsAlike emptyState

theorem conflictBatch_footprints : FootprintsHold emptyState emptyState conflictBatch := by
  apply footprintsHold_of_forall
  intro t ht
  simp only [conflictBatch, List.mem_cons, List.mem_singleton, List.not_mem_nil, or_false] at ht
  rcases ht with rfl | rfl
  · exact writeKey_accurate 0 1 emptyState
  · exact copyWrite_accurate emptyState

/-- After a redo the receipts of the two modes differ. On `conflictBatch`
(spec §8 scenario 3: accurate sets, no failure, a conflict found by the
detector) both modes install the same state, but the redo runs `writing` again
on the context the speculative run already emitted into, so the success
receipts of parallel mode hold every event twice. -/
theorem redo_doubles_events :
    (∀ t ∈ conflictBatch, t.err = none)
    ∧ FailuresCarryOver emptyState emptyState conflictBatch
    ∧ FootprintsHold emptyState emptyState conflictBatch
    ∧ detectConflict NewStateContext
        (List.zipWith speculate conflictBatch (CopyStateDb emptyState conflictBatch)) = some true
    ∧ (executeTxnCtxList { IsParallel := true, MaxConcurrency := 16 } emptyState
          conflictBatch).map (fun r => (r.1.map (fun c => c.receipt), r.2 0, r.2 1))
        = some ([some (Receipt.success [0, 0]), some (Receipt.success [1, 1])], 1, 6)
    ∧ (executeTxnCtxList { IsParallel := false, MaxConcurrency := 16 } emptyState
          conflictBatch).map (fun r => (r.1.map (fun c => c.receipt), r.2 0, r.2 1))
        = some ([some (Receipt.success [0]), some (Receipt.success [1])], 1, 6) :=
  ⟨conflictBatch_prepared, conflictBatch_failures, conflictBatch_footprints, rfl, rfl, rfl⟩

/-- C1 (amended). For every batch of prepared transactions and every starting
world state, if every transaction that fails in its speculative run fails
with the same error in the serial pass and leaves the state as it found it
(`FailuresCarryOver`), and, in case the conflict detector finds the batch
clean, the read set, write set and deltas of every successful speculative run
are accurate for the serial pass (`FootprintsHold`), then parallel mode and
serial mode install the same world state and give every transaction the same
error or success outcome; and when the conflict detector finds the batch
clean (no redo), they give every transaction the same receipt. -/
theorem parallel_eq_serial (cfg : Config) (origin : StateDB) (list : List txnCtx)
    (hprep : ∀ t ∈ list, t.err = none)
    (hfail : FailuresCarryOver origin origin list)
    (hfoot : detectConflict NewStateContext
          (List.zipWith speculate list (CopyStateDb origin list)) = some false →
        FootprintsHold origin origin list) :
    ∃ par ser, executeTxnCtxList { cfg with IsParallel := true } origin list = some par
      ∧ executeTxnCtxList { cfg with IsParallel := false } origin list = some ser
      ∧ par.2 = ser.2
      ∧ par.1.map (fun c => c.err) = ser.1.map (fun c => c.err)
      ∧ (detectConflict NewStateContext
            (List.zipWith speculate list (CopyStateDb origin list)) = some false →
          par.1.map (fun c => c.receipt) = ser.1.map (fun c => c.receipt)) := by
  have hexec : ∀ u ∈ list.map (fun t => speculate t origin), u.err = none → u.ps ≠ none := by
    intro u hu
    obtain ⟨t, -, rfl⟩ := List.mem_map.1 hu
    exact speculate_has_ps origin t
  obtain ⟨b, hb, -⟩ := detectConflict_general _ NewStateContext hexec
  have hser : executeTxnCtxList { cfg with IsParallel := false } origin list
      = some (executeTxnCtxListInOrder origin list false) := by
    simp [executeTxnCtxList]
  have hpar : executeTxnCtxList { cfg with IsParallel := true } origin list
      = executeTxnCtxListInConcurrency origin list := by
    simp [executeTxnCtxList]
  cases b with
  | true =>
    obtain ⟨h1, h2⟩ := redo_eq_serial origin list origin hprep hfail
    refine ⟨executeTxnCtxListInOrder origin (list.map (fun t => speculate t origin)) true,
      executeTxnCtxListInOrder origin list false, ?_, hser, ?_, ?_, ?_⟩
    · rw [hpar]
      unfold executeTxnCtxListInConcurrency
      simp only [zipWith_speculate, hb]
    · exact h1
    · simp only [executeTxnCtxListInOrder, gcCopiedStateDB_map_err]
      exact h2
    · intro hclean
      rw [zipWith_speculate, hb] at hclean
      cases hclean
  | false =>
    obtain ⟨h1, h2⟩ := merge_eq_serial origin list NewStateContext origin hprep hfail
      (hfoot (by rw [zipWith_speculate]; exact hb)) (fun _ _ => rfl) hb
    refine ⟨(gcCopiedStateDB (list.map (fun t => speculate t origin)),
        (inOrderLoop false origin list).2),
      executeTxnCtxListInOrder origin list false, ?_, hser, rfl, ?_, ?_⟩
    · rw [hpar]
      unfold executeTxnCtxListInConcurrency
      simp only [zipWith_speculate, hb, h1]
    · simp only [executeTxnCtxListInOrder, gcCopiedStateDB_map_err]
      have := congrArg (List.map Prod.fst) h2
      simpa [List.map_map, Function.comp_def] using this
    · intro _
      simp only [executeTxnCtxListInOrder, gcCopiedStateDB_map_receipt]
      have := congrArg (List.map Prod.snd) h2
      simpa [List.map_map, Function.comp_def] using this

theorem revertBatch_prepared : ∀ t ∈ revertBatch, t.err = none := by
  intro t ht
  simp only [revertBatch, List.mem_cons, List.mem_singleton, List.not_mem_nil, or_false] at ht
  rcases ht with rfl | rfl | rfl <;> rfl

theorem revertBatch_failures : FailuresCarryOver fundedState fundedState revertBatch := by
  apply failuresCarryOver_of_forall
  intro t ht
  simp only [revertBatch, List.mem_cons, List.mem_singleton, List.not_mem_nil, or_false] at ht
  rcases ht with rfl | rfl | rfl
  · exact writeKey_failsAlike 0 1 fundedState
  · exact revertAlways_failsAlike 7 fundedState
  · exact guardedWrite_failsAlike 5 2 1 9 fundedState (by decide)

theorem revertBatch_footprints : FootprintsHold fundedState fundedState revertBatch := by
  apply footprintsHold_of_forall
  intro t ht
  simp only [revertBatch, List.mem_cons, List.mem_singleton, List.not_mem_nil, or_false] at ht
  rcases ht with rfl | rfl | rfl
  · exact writeKey_accurate 0 1 fundedState
  · exact revertAlways_accurate 7 fundedState
  · exact guardedWrite_accurate 5 2 1 9 fundedState

/-- Witness for C1 (amended): spec §8 scenario 5 on `fundedState`. -/
theorem parallel_eq_serial_witness :
    (∀ t ∈ revertBatch, t.err = none)
    ∧ FailuresCarryOver fundedState fundedState revertBatch
    ∧ (detectConflict NewStateContext
          (List.zipWith speculate revertBatch (CopyStateDb fundedState revertBatch))
            = some false →
        FootprintsHold fundedState fundedState revertBatch)
    ∧ ∃ par ser,
        executeTxnCtxList
            { ({ IsParallel := true, MaxConcurrency := 16 } : Config) with IsParallel := true }
            fundedState revertBatch = some par
        ∧ executeTxnCtxList
            { ({ IsParallel := true, MaxConcurrency := 16 } : Config) with IsParallel := false }
            fundedState revertBatch = some ser
        ∧ par.2 = ser.2
        ∧ par.1.map (fun c => c.err) = ser.1.map (fun c => c.err)
        ∧ (detectConflict NewStateContext
              (List.zipWith speculate revertBatch (CopyStateDb fundedState revertBatch))
                = some false →
            par.1.map (fun c => c.receipt) = ser.1.map (fun c => c.receipt)) :=
  ⟨revertBatch_prepared, revertBatch_failures, fun _ => revertBatch_footprints,
    parallel_eq_serial { IsParallel := true, MaxConcurrency := 16 } fundedState revertBatch
      revertBatch_prepared revertBatch_failures (fun _ => revertBatch_footprints)⟩


/-! ## Preparer and block driver -/

/-- C5, evaluated at spec §8 scenario 4 (three transactions of distinct
hashes, the middle one with an unbindable payload): `prepareTxnList` panics on
the nil `txn` of the failed context, so `Execute` never reaches `PostExecute`,
whatever the configuration and the starting state. -/
theorem Execute_panics_on_failed_preparation :
    (failingBlock.map (fun t => t.TxnHash)).Nodup
    ∧ ((failingBlock.map prepareOne).map (fun c => (c.txn.isSome, c.receipt)))
        = [(true, none), (false, some (Receipt.failure 7)), (true, none)]
    ∧ prepareTxnList failingBlock = none
    ∧ ∀ cfg s, Execute cfg s failingBlock = none := by
  refine ⟨by decide, rfl, rfl, ?_⟩
  intro cfg s
  rfl

/-! ## Witnesses -/

theorem independentBatch_pairwise :
    independentBatch.Pairwise (fun A B => ¬ staticConflict A B) := by
  simp [independentBatch, liveCtx, prepareOne, goodTxn, staticConflict]

theorem executedBatch_executed : ∀ t ∈ executedBatch, t.err = none → t.ps ≠ none := by
  intro t ht
  simp only [executedBatch, List.mem_cons, List.mem_singleton, List.not_mem_nil, or_false] at ht
  rcases ht with rfl | rfl <;> simp [executedCtx]

/-- Witness for C4: `MaxConcurrency = 2` on three independent transactions. -/
theorem SplitTxnCtxList_batch_size_witness :
    (1 : Int) ≤ 2
    ∧ ∃ batches, SplitTxnCtxList 2 independentBatch = some batches ∧
        ∀ b ∈ batches, (b.length : Int) ≤ 2 :=
  ⟨by decide, SplitTxnCtxList_batch_size 2 independentBatch (by decide)⟩

/-- Witness for C8: `MaxConcurrency = 2` on three independent transactions. -/
theorem SplitTxnCtxList_independent_sizes_witness :
    (1 : Int) ≤ 2
    ∧ independentBatch.Pairwise (fun A B => ¬ staticConflict A B)
    ∧ ∃ batches, SplitTxnCtxList 2 independentBatch = some batches ∧
        batches.map List.length = chunkSizes (2 : Int).toNat independentBatch.length ∧
        batches.length = (independentBatch.length + (2 : Int).toNat - 1) / (2 : Int).toNat :=
  ⟨by decide, independentBatch_pairwise,
    SplitTxnCtxList_independent_sizes 2 independentBatch (by decide) independentBatch_pairwise⟩

/-- Witness for C9: `MaxConcurrency = 2` on two transactions of one origin
followed by a third of another origin. -/
theorem SplitTxnCtxList_greedy_witness :
    (1 : Int) ≤ 2
    ∧ ∃ batches, SplitTxnCtxList 2 sameOriginBatch = some batches ∧
        List.Chain' (closedBy 2) batches :=
  ⟨by decide, SplitTxnCtxList_greedy 2 sameOriginBatch (by decide)⟩

/-- Witness for C6: the second executed context read what the first wrote. -/
theorem detectConflict_iff_witness :
    (∀ t ∈ executedBatch, t.err = none → t.ps ≠ none)
    ∧ ∃ conflict, detectConflict NewStateContext executedBatch = some conflict ∧
        (conflict = true ↔ ∃ i t p, executedBatch[i]? = some t ∧ t.err = none ∧ t.ps = some p
            ∧ psConflicts p.GetCtx (batchContext (executedBatch.take i))) :=
  ⟨executedBatch_executed, detectConflict_iff executedBatch executedBatch_executed⟩

end Reddio
